import Mathlib

/-!
Verification of the fraud-detection pipeline of the rift-money-muling
repository (src/backend/main.py, src/backend/services/json_formatter.py,
src/backend/ml/predictor.py) against its natural-language specification.

Conventions of the shallow embedding:
* account ids, transaction ids and pattern names are `String`s, compared
  with the code-point lexicographic order Python uses for `sorted`;
* timestamps are integers (seconds since an arbitrary epoch); the code
  sorts adjacency lists by the ISO representation of naive datetimes,
  which is order-isomorphic to the chronological order modelled here;
* amounts and scores that Python holds as floats are modelled as exact
  rationals;
* Python dicts are modelled as insertion-ordered association lists
  (`List (String × α)`) with the dict get / set semantics;
* Python `sorted` / `list.sort` are stable sorts, embedded with the
  (stable) `List.insertionSort`, which agrees with every stable sort;
* the only third-party algorithm the pipeline relies on,
  `networkx.simple_cycles`, is treated as an oracle: the cycle detector
  takes the enumeration it returns as an explicit argument.
-/

namespace Rift

/-- Lexicographic boolean comparison on lists of characters, i.e. the
order Python uses to compare strings (by code point). -/
def charListLeB : List Char → List Char → Bool
  | [], _ => true
  | _ :: _, [] => false
  | a :: as, b :: bs => if a < b then true else if b < a then false else charListLeB as bs

/-- Python string order, as a proposition. -/
def strLe (a b : String) : Prop := charListLeB a.data b.data = true

instance : DecidableRel strLe := fun _ _ => instDecidableEqBool _ _

lemma charListLeB_cons {a b : Char} {as bs : List Char} :
    charListLeB (a :: as) (b :: bs) = true ↔ a < b ∨ (a = b ∧ charListLeB as bs = true) := by
  show (if a < b then true else if b < a then false else charListLeB as bs) = true ↔ _
  rcases lt_trichotomy a b with h | h | h
  · simp [h, not_lt_of_gt h]
  · simp [h, lt_irrefl]
  · simp [h, not_lt_of_gt h, ne_of_gt h]

lemma charListLeB_total : ∀ as bs : List Char, charListLeB as bs = true ∨ charListLeB bs as = true
  | [], _ => Or.inl rfl
  | _ :: _, [] => Or.inr rfl
  | a :: as, b :: bs => by
      rcases lt_trichotomy a b with h | h | h
      · exact Or.inl (charListLeB_cons.2 (Or.inl h))
      · rcases charListLeB_total as bs with h2 | h2
        · exact Or.inl (charListLeB_cons.2 (Or.inr ⟨h, h2⟩))
        · exact Or.inr (charListLeB_cons.2 (Or.inr ⟨h.symm, h2⟩))
      · exact Or.inr (charListLeB_cons.2 (Or.inl h))

lemma charListLeB_trans : ∀ as bs cs : List Char,
    charListLeB as bs = true → charListLeB bs cs = true → charListLeB as cs = true
  | [], _, _ => fun _ _ => rfl
  | a :: as, [], _ => fun h _ => by cases h
  | _ :: _, _ :: _, [] => fun _ h => by cases h
  | a :: as, b :: bs, c :: cs => fun h1 h2 => by
      rcases charListLeB_cons.1 h1 with hab | ⟨hab, h1'⟩ <;>
        rcases charListLeB_cons.1 h2 with hbc | ⟨hbc, h2'⟩
      · exact charListLeB_cons.2 (Or.inl (lt_trans hab hbc))
      · exact charListLeB_cons.2 (Or.inl (hbc ▸ hab))
      · exact charListLeB_cons.2 (Or.inl (hab ▸ hbc))
      · exact charListLeB_cons.2 (Or.inr ⟨hab.trans hbc, charListLeB_trans as bs cs h1' h2'⟩)

lemma charListLeB_antisymm : ∀ as bs : List Char,
    charListLeB as bs = true → charListLeB bs as = true → as = bs
  | [], [] => fun _ _ => rfl
  | [], _ :: _ => fun _ h => by cases h
  | _ :: _, [] => fun h _ => by cases h
  | a :: as, b :: bs => fun h1 h2 => by
      rcases charListLeB_cons.1 h1 with hab | ⟨hab, h1'⟩ <;>
        rcases charListLeB_cons.1 h2 with hba | ⟨hba, h2'⟩
      · exact absurd hba (not_lt_of_gt hab)
      · exact absurd hab (hba ▸ lt_irrefl a)
      · exact absurd hba (hab ▸ lt_irrefl a)
      · rw [hab, charListLeB_antisymm as bs h1' h2']

instance : IsTotal String strLe :=
  ⟨fun a b => charListLeB_total a.data b.data⟩

instance : IsTrans String strLe :=
  ⟨fun a b c => charListLeB_trans a.data b.data c.data⟩

instance : IsAntisymm String strLe :=
  ⟨fun a b h1 h2 => by
    cases a; cases b
    exact congrArg String.mk (charListLeB_antisymm _ _ h1 h2)⟩

/-- Stable ascending sort of a list of strings in Python string order,
modelling Python sorted on strings. -/
def sortStrings (l : List String) : List String := List.insertionSort strLe l

/-- Dict lookup: the value stored under key a, if any. -/
def alFind {α : Type} (m : List (String × α)) (a : String) : Option α :=
  (m.find? (fun p => decide (p.1 = a))).map (fun p => p.2)

/-- Dict lookup with default, modelling Python dict.get(a, d). -/
def alGetD {α : Type} (m : List (String × α)) (a : String) (d : α) : α :=
  (alFind m a).getD d

/-- Dict key-membership test, modelling Python (a in m). -/
def alContains {α : Type} (m : List (String × α)) (a : String) : Bool :=
  (alFind m a).isSome

/-- Dict write m[a] = v: overwrite in place if the key exists, else
append, exactly the insertion-order semantics of a Python dict. -/
def alSet {α : Type} (m : List (String × α)) (a : String) (v : α) : List (String × α) :=
  if alContains m a then m.map (fun p => if p.1 = a then (a, v) else p) else m ++ [(a, v)]

/-- Dict key list, in insertion order. -/
def alKeys {α : Type} (m : List (String × α)) : List String := m.map (fun p => p.1)

/-- A validated transaction record (class Transaction, main.py lines
33-62): unique id, sender, receiver, positive amount, timestamp. -/
structure Transaction where
  transaction_id : String
  sender_id : String
  receiver_id : String
  amount : ℚ
  timestamp : ℤ
deriving DecidableEq

/-- The transaction multi-graph (build_transaction_graph, main.py lines
197-220) is the list of its edges: one edge per transaction, in input
order; nodes are all endpoints. -/
abbrev TxGraph := List Transaction

/-- Timestamp order on transactions (the sort key of the adjacency maps
in create_transaction_maps, main.py lines 402-407). -/
def tsLe (a b : Transaction) : Prop := a.timestamp ≤ b.timestamp

instance : DecidableRel tsLe := fun a b => Int.decLe a.timestamp b.timestamp

/-- Entries of outgoing_map[a] (create_transaction_maps, main.py lines
383-409): the transactions sent by a, stably sorted by timestamp. -/
def outgoing_list (G : TxGraph) (a : String) : List Transaction :=
  List.insertionSort tsLe (G.filter (fun t => decide (t.sender_id = a)))

/-- Entries of incoming_map[a] (create_transaction_maps): the
transactions received by a, stably sorted by timestamp. -/
def incoming_list (G : TxGraph) (a : String) : List Transaction :=
  List.insertionSort tsLe (G.filter (fun t => decide (t.receiver_id = a)))

/-- Keys of outgoing_map, in the sorted order the detectors iterate. -/
def outgoing_keys (G : TxGraph) : List String :=
  sortStrings ((G.map (fun t => t.sender_id)).dedup)

/-- Keys of incoming_map, in the sorted order the detectors iterate. -/
def incoming_keys (G : TxGraph) : List String :=
  sortStrings ((G.map (fun t => t.receiver_id)).dedup)

/-- Nodes of the graph, sorted (sorted(simple.nodes()) and
sorted(G.nodes())). -/
def nodes_sorted (G : TxGraph) : List String :=
  sortStrings ((G.map (fun t => t.sender_id) ++ G.map (fun t => t.receiver_id)).dedup)

/-- Model of SuspiciousRing (main.py lines 93-100). -/
structure SuspiciousRing where
  ring_id : String
  members : List String
  pattern : String
  risk_score : Option ℚ
  total_amount : Option ℚ
  transaction_count : Option ℕ
deriving DecidableEq

/-- Zero-pad a numeral string to the given width (Python format {i:03}). -/
def padZeroes (w : ℕ) (s : String) : String :=
  String.mk (List.replicate (w - s.length) '0') ++ s

/-- Ring id of the idx-th final ring, 1-based: RING_001, RING_002, ... -/
def ringIdNum (idx : ℕ) : String := "RING_" ++ padZeroes 3 (toString idx)

/-- Pattern base scores for ring risk (_RISK_BASE_SCORES, main.py lines
750-755), with the dict-get default 80 used by
calculate_aggregated_risk_score. -/
def riskBaseScore (p : String) : ℕ :=
  if p = "cycle" then 90
  else if p = "smurfing_fan_in" then 85
  else if p = "smurfing_fan_out" then 85
  else if p = "layered" then 80
  else 80

/-- Floor of a rational, computed from its reduced fraction; agrees with
Int.floor (see ratFloor_eq_floor). -/
def ratFloor (q : ℚ) : ℤ := q.num / (q.den : ℤ)

lemma ratFloor_eq_floor (q : ℚ) : ratFloor q = ⌊q⌋ := (Rat.floor_def).symm

/-- Round a rational to four decimal places, to the nearest value
(Python round(x, 4); Python breaks exact ties to even, but every use in
the pipeline rounds a value with at most two decimals, so no tie can
occur and round-half-up agrees). -/
def round4 (q : ℚ) : ℚ := (ratFloor (q * 10000 + 1 / 2) : ℚ) / 10000

lemma round4_int_div_100 (n : ℤ) : round4 ((n : ℚ) / 100) = (n : ℚ) / 100 := by
  unfold round4
  rw [ratFloor_eq_floor]
  have h : (n : ℚ) / 100 * 10000 + 1 / 2 = ((n * 100 : ℤ) : ℚ) + 1 / 2 := by push_cast; ring
  rw [h, Int.floor_int_add]
  have h2 : ⌊(1 : ℚ) / 2⌋ = 0 := by norm_num
  rw [h2]
  push_cast
  ring

lemma round4_nat_div_100 (n : ℕ) : round4 ((n : ℚ) / 100) = (n : ℚ) / 100 := by
  have h := round4_int_div_100 (n : ℤ)
  push_cast at h ⊢
  exact h

/-- Risk-score formula of the aggregator
(calculate_aggregated_risk_score, main.py lines 770-778):
raw = min(100, base + min(10, member_count)), risk = round(raw / 100, 4). -/
def calculate_aggregated_risk_score (pattern : String) (member_count : ℕ) : ℚ :=
  round4 (((min 100 (riskBaseScore pattern + min 10 member_count) : ℕ) : ℚ) / 100)

/-- Model of assign_risk_scores (main.py lines 781-798): rebuild every
ring with risk_score set by the aggregation formula. -/
def assign_risk_scores (rings : List SuspiciousRing) : List SuspiciousRing :=
  rings.map (fun r =>
    { r with risk_score := some (calculate_aggregated_risk_score r.pattern r.members.length) })

/-- Descending-risk comparison used by sort_rings_by_risk; Python sorts
on key (r.risk_score or 0) with reverse=True and a stable sort. -/
def riskDescLe (a b : SuspiciousRing) : Prop :=
  b.risk_score.getD 0 ≤ a.risk_score.getD 0

instance : DecidableRel riskDescLe := fun a b =>
  Rat.instDecidableLe (b.risk_score.getD 0) (a.risk_score.getD 0)

/-- Model of sort_rings_by_risk (main.py lines 801-806): stable sort by
risk_score descending. -/
def sort_rings_by_risk (rings : List SuspiciousRing) : List SuspiciousRing :=
  List.insertionSort riskDescLe rings

/-- Model of assign_ring_ids (main.py lines 809-825), with the 1-based
running index made explicit. -/
def assign_ring_ids_from (idx : ℕ) : List SuspiciousRing → List SuspiciousRing
  | [] => []
  | r :: rs => { r with ring_id := ringIdNum idx } :: assign_ring_ids_from (idx + 1) rs

/-- Model of assign_ring_ids: RING_001, RING_002, ... in list order. -/
def assign_ring_ids (rings : List SuspiciousRing) : List SuspiciousRing :=
  assign_ring_ids_from 1 rings

/-- Model of combine_all_rings (main.py lines 758-767). -/
def combine_all_rings (cycle_rings smurfing_rings layered_rings : List SuspiciousRing) :
    List SuspiciousRing :=
  cycle_rings ++ smurfing_rings ++ layered_rings

/-- Model of aggregate_fraud_rings (main.py lines 828-847): combine,
score, stable-sort by risk descending, assign sequential ids. -/
def aggregate_fraud_rings (cycle_rings smurfing_rings layered_rings : List SuspiciousRing) :
    List SuspiciousRing :=
  assign_ring_ids (sort_rings_by_risk
    (assign_risk_scores (combine_all_rings cycle_rings smurfing_rings layered_rings)))

lemma mem_assign_ring_ids_from (r : SuspiciousRing) :
    ∀ (idx : ℕ) (l : List SuspiciousRing), r ∈ assign_ring_ids_from idx l →
      ∃ r' ∈ l, r.members = r'.members ∧ r.pattern = r'.pattern ∧
        r.risk_score = r'.risk_score
  | _, [], h => by cases h
  | idx, x :: xs, h => by
      rw [assign_ring_ids_from] at h
      rcases List.mem_cons.mp h with h' | h'
      · exact ⟨x, List.mem_cons_self x xs, by rw [h']; exact ⟨rfl, rfl, rfl⟩⟩
      · obtain ⟨r', hr', hm⟩ := mem_assign_ring_ids_from r (idx + 1) xs h'
        exact ⟨r', List.mem_cons_of_mem x hr', hm⟩

lemma mem_aggregate_fraud_rings {r : SuspiciousRing}
    {c s l : List SuspiciousRing} (h : r ∈ aggregate_fraud_rings c s l) :
    r.risk_score = some (calculate_aggregated_risk_score r.pattern r.members.length) := by
  obtain ⟨r', hr', hmem, hpat, hrisk⟩ := mem_assign_ring_ids_from r 1 _ h
  have hr'' : r' ∈ assign_risk_scores (combine_all_rings c s l) :=
    ((List.perm_insertionSort riskDescLe _).mem_iff).1 hr'
  obtain ⟨r0, _, hr0⟩ := List.mem_map.1 hr''
  rw [hrisk, ← hr0]
  simp only [← hr0, hpat, hmem]

lemma calculate_bounds (p : String) (n : ℕ) :
    0 ≤ calculate_aggregated_risk_score p n ∧ calculate_aggregated_risk_score p n ≤ 1 := by
  unfold calculate_aggregated_risk_score
  rw [round4_nat_div_100]
  have h1 : (min 100 (riskBaseScore p + min 10 n) : ℕ) ≤ 100 := min_le_left _ _
  constructor
  · positivity
  · rw [div_le_one (by norm_num)]
    exact_mod_cast h1

/-- C1: for every final ring produced by the ring aggregator with
pattern p and member list M, the assigned risk_score equals
round(min(100, base(p) + min(10, |M|)) / 100, 4) with base(cycle) = 90,
base(smurfing_fan_in) = base(smurfing_fan_out) = 85, base(layered) = 80,
and consequently every emitted ring risk_score lies in [0, 1]. -/
theorem final_ring_risk_score_formula
    (c s l : List SuspiciousRing) (r : SuspiciousRing)
    (hr : r ∈ aggregate_fraud_rings c s l) :
    (r.pattern = "cycle" →
      r.risk_score = some (round4 ((min 100 ((90 : ℚ) + min 10 (r.members.length : ℚ))) / 100))) ∧
    (r.pattern = "smurfing_fan_in" →
      r.risk_score = some (round4 ((min 100 ((85 : ℚ) + min 10 (r.members.length : ℚ))) / 100))) ∧
    (r.pattern = "smurfing_fan_out" →
      r.risk_score = some (round4 ((min 100 ((85 : ℚ) + min 10 (r.members.length : ℚ))) / 100))) ∧
    (r.pattern = "layered" →
      r.risk_score = some (round4 ((min 100 ((80 : ℚ) + min 10 (r.members.length : ℚ))) / 100))) ∧
    0 ≤ r.risk_score.getD 0 ∧ r.risk_score.getD 0 ≤ 1 := by
  have hform := mem_aggregate_fraud_rings hr
  have hcast : ∀ b : ℕ, ((min 100 (b + min 10 r.members.length) : ℕ) : ℚ) =
      min 100 ((b : ℚ) + min 10 (r.members.length : ℚ)) := by
    intro b; push_cast; rfl
  have hb := calculate_bounds r.pattern r.members.length
  refine ⟨?_, ?_, ?_, ?_, ?_, ?_⟩
  · intro hp
    rw [hform, hp]
    unfold calculate_aggregated_risk_score
    rw [show riskBaseScore "cycle" = 90 from by decide, hcast 90]
    norm_num
  · intro hp
    rw [hform, hp]
    unfold calculate_aggregated_risk_score
    rw [show riskBaseScore "smurfing_fan_in" = 85 from by decide, hcast 85]
    norm_num
  · intro hp
    rw [hform, hp]
    unfold calculate_aggregated_risk_score
    rw [show riskBaseScore "smurfing_fan_out" = 85 from by decide, hcast 85]
    norm_num
  · intro hp
    rw [hform, hp]
    unfold calculate_aggregated_risk_score
    rw [show riskBaseScore "layered" = 80 from by decide, hcast 80]
    norm_num
  · rw [hform]; exact hb.1
  · rw [hform]; exact hb.2

/-- Concrete instantiation of final_ring_risk_score_formula on a
three-member cycle ring. -/
theorem final_ring_risk_score_formula_witness :
    (let r : SuspiciousRing :=
      ⟨"RING_001", ["A", "B", "C"], "cycle", some (93 / 100), none, none⟩
     (r.pattern = "cycle" →
       r.risk_score = some (round4 ((min 100 ((90 : ℚ) + min 10 (r.members.length : ℚ))) / 100))) ∧
     (r.pattern = "smurfing_fan_in" →
       r.risk_score = some (round4 ((min 100 ((85 : ℚ) + min 10 (r.members.length : ℚ))) / 100))) ∧
     (r.pattern = "smurfing_fan_out" →
       r.risk_score = some (round4 ((min 100 ((85 : ℚ) + min 10 (r.members.length : ℚ))) / 100))) ∧
     (r.pattern = "layered" →
       r.risk_score = some (round4 ((min 100 ((80 : ℚ) + min 10 (r.members.length : ℚ))) / 100))) ∧
     0 ≤ r.risk_score.getD 0 ∧ r.risk_score.getD 0 ≤ 1) :=
  final_ring_risk_score_formula
    [⟨"RING_X", ["A", "B", "C"], "cycle", none, none, none⟩] [] []
    ⟨"RING_001", ["A", "B", "C"], "cycle", some (93 / 100), none, none⟩
    (by with_unfolding_all decide)

/-- Dict find over a value-overwritten list: overwriting the entry at
key a makes lookup of a return the new value (if the key was present). -/
lemma find_map_overwrite {α : Type} (m : List (String × α)) (a : String) (v : α) :
    ((m.map (fun p => if p.1 = a then (a, v) else p)).find? (fun p => decide (p.1 = a)))
      = if (m.find? (fun p => decide (p.1 = a))).isSome then some (a, v) else none := by
  induction m with
  | nil => rfl
  | cons p rest ih =>
      by_cases hp : p.1 = a
      · rw [List.map_cons, if_pos hp,
          List.find?_cons_of_pos _ (by simp),
          List.find?_cons_of_pos _ (by simp [hp])]
        simp
      · rw [List.map_cons, if_neg hp,
          List.find?_cons_of_neg _ (by simp [hp]),
          List.find?_cons_of_neg _ (by simp [hp])]
        exact ih

lemma find_map_overwrite_other {α : Type} (m : List (String × α)) (a : String) (v : α)
    (b : String) (hb : b ≠ a) :
    ((m.map (fun p => if p.1 = a then (a, v) else p)).find? (fun p => decide (p.1 = b)))
      = m.find? (fun p => decide (p.1 = b)) := by
  induction m with
  | nil => rfl
  | cons p rest ih =>
      by_cases hp : p.1 = a
      · rw [List.map_cons, if_pos hp,
          List.find?_cons_of_neg _ (by simp [Ne.symm hb]),
          List.find?_cons_of_neg _ (by simp [hp, Ne.symm hb])]
        exact ih
      · by_cases hq : p.1 = b
        · rw [List.map_cons, if_neg hp,
            List.find?_cons_of_pos _ (by simp [hq]),
            List.find?_cons_of_pos _ (by simp [hq])]
        · rw [List.map_cons, if_neg hp,
            List.find?_cons_of_neg _ (by simp [hq]),
            List.find?_cons_of_neg _ (by simp [hq])]
          exact ih

lemma alFind_append {α : Type} (m1 m2 : List (String × α)) (b : String) :
    alFind (m1 ++ m2) b = ((alFind m1 b).map some).getD (alFind m2 b) := by
  unfold alFind
  rw [List.find?_append]
  cases m1.find? (fun p => decide (p.1 = b)) <;> rfl

lemma alGetD_alSet_same {α : Type} (m : List (String × α)) (a : String) (v d : α) :
    alGetD (alSet m a v) a d = v := by
  cases hf : m.find? (fun p => decide (p.1 = a)) with
  | some x =>
      have hc : alContains m a = true := by simp [alContains, alFind, hf]
      rw [alGetD, alSet, if_pos hc, alFind, find_map_overwrite, hf]
      simp
  | none =>
      have hc : ¬ alContains m a = true := by simp [alContains, alFind, hf]
      rw [alGetD, alSet, if_neg hc, alFind_append]
      have h1 : alFind [(a, v)] a = some v := by simp [alFind, List.find?]
      have h2 : alFind m a = none := by simp [alFind, hf]
      rw [h1, h2]
      rfl

lemma alGetD_alSet_other {α : Type} (m : List (String × α)) (a : String) (v d : α)
    (b : String) (hb : b ≠ a) :
    alGetD (alSet m a v) b d = alGetD m b d := by
  cases hf : m.find? (fun p => decide (p.1 = a)) with
  | some x =>
      have hc : alContains m a = true := by simp [alContains, alFind, hf]
      rw [alGetD, alSet, if_pos hc, alFind, find_map_overwrite_other m a v b hb]
      rfl
  | none =>
      have hc : ¬ alContains m a = true := by simp [alContains, alFind, hf]
      rw [alGetD, alSet, if_neg hc, alFind_append]
      have h1 : alFind [(a, v)] b = none := by simp [alFind, List.find?, Ne.symm hb]
      rw [h1]
      cases hg : alFind m b <;> simp [alGetD, hg]

/-- Pattern base scores of the account scorer (_PATTERN_SCORES, main.py
lines 854-859), with the dict-get default 0 used by apply_ring_scores. -/
def patternScore (p : String) : ℤ :=
  if p = "cycle" then 40
  else if p = "smurfing_fan_in" then 30
  else if p = "smurfing_fan_out" then 30
  else if p = "layered" then 25
  else 0

/-- Inner loop of apply_ring_scores for a single ring: add the pattern
score of the ring to every member. -/
def apply_ring_scores_step (scores : List (String × ℤ)) (ring : SuspiciousRing) :
    List (String × ℤ) :=
  ring.members.foldl (fun sc m => alSet sc m (alGetD sc m 0 + patternScore ring.pattern)) scores

/-- Model of apply_ring_scores (main.py lines 906-924): cumulative
pattern-based score of every account over all rings it belongs to. -/
def apply_ring_scores (fraud_rings : List SuspiciousRing) : List (String × ℤ) :=
  fraud_rings.foldl apply_ring_scores_step []

lemma apply_ring_scores_step_zero {ring : SuspiciousRing}
    (h : patternScore ring.pattern = 0) :
    ∀ (ms : List String) (sc : List (String × ℤ)) (a : String),
      alGetD (ms.foldl (fun sc m => alSet sc m (alGetD sc m 0 + patternScore ring.pattern)) sc) a 0
        = alGetD sc a 0
  | [], _, _ => rfl
  | m :: ms, sc, a => by
      rw [List.foldl_cons, apply_ring_scores_step_zero h ms _ a]
      by_cases hb : a = m
      · subst hb
        rw [alGetD_alSet_same, h, add_zero]
      · rw [alGetD_alSet_other _ _ _ _ _ hb]

/-- C10: a ring whose pattern string is none of cycle, smurfing_fan_in,
smurfing_fan_out, layered is still scored by the aggregator with the
default base 80, i.e. risk_score = round(min(100, 80 + min(10, n)) / 100, 4),
while the account scorer adds 0 to every account score for membership in
that ring. -/
theorem unknown_pattern_defaults (p : String)
    (hp : p ≠ "cycle" ∧ p ≠ "smurfing_fan_in" ∧ p ≠ "smurfing_fan_out" ∧ p ≠ "layered") :
    (∀ n : ℕ, calculate_aggregated_risk_score p n
        = round4 ((min 100 ((80 : ℚ) + min 10 (n : ℚ))) / 100)) ∧
    patternScore p = 0 ∧
    (∀ (rings : List SuspiciousRing) (ring : SuspiciousRing), ring.pattern = p →
       ∀ a : String, alGetD (apply_ring_scores (rings ++ [ring])) a 0
          = alGetD (apply_ring_scores rings) a 0) := by
  obtain ⟨h1, h2, h3, h4⟩ := hp
  have hbase : riskBaseScore p = 80 := by
    unfold riskBaseScore
    rw [if_neg h1, if_neg h2, if_neg h3, if_neg h4]
  have hps : patternScore p = 0 := by
    unfold patternScore
    rw [if_neg h1, if_neg h2, if_neg h3, if_neg h4]
  refine ⟨?_, hps, ?_⟩
  · intro n
    unfold calculate_aggregated_risk_score
    rw [hbase]
    have hcast : ((min 100 (80 + min 10 n) : ℕ) : ℚ) = min 100 ((80 : ℚ) + min 10 (n : ℚ)) := by
      push_cast; rfl
    rw [hcast]
  · intro rings ring hpat a
    unfold apply_ring_scores
    rw [List.foldl_append]
    show alGetD (apply_ring_scores_step _ ring) a 0 = _
    unfold apply_ring_scores_step
    exact apply_ring_scores_step_zero (hpat ▸ hps) ring.members _ a

/-- Concrete instantiation of unknown_pattern_defaults at the pattern
string "mystery". -/
theorem unknown_pattern_defaults_witness :
    (∀ n : ℕ, calculate_aggregated_risk_score "mystery" n
        = round4 ((min 100 ((80 : ℚ) + min 10 (n : ℚ))) / 100)) ∧
    patternScore "mystery" = 0 ∧
    (∀ (rings : List SuspiciousRing) (ring : SuspiciousRing), ring.pattern = "mystery" →
       ∀ a : String, alGetD (apply_ring_scores (rings ++ [ring])) a 0
          = alGetD (apply_ring_scores rings) a 0) :=
  unknown_pattern_defaults "mystery" (by decide)

/-- Number of edges incident to a node, modelling node_tx_count in
compute_transaction_metrics (main.py lines 949-962): the edge loop
increments the count of both endpoints, so node a ends with the number
of edges sent by a plus the number received by a (a self-loop counts
twice). -/
def total_tx_count (G : TxGraph) (a : String) : ℕ :=
  (G.filter (fun t => decide (t.sender_id = a))).length
    + (G.filter (fun t => decide (t.receiver_id = a))).length

/-- Integer order used to sort timestamp lists. -/
def intLe (x y : ℤ) : Prop := x ≤ y

instance : DecidableRel intLe := fun x y => Int.decLe x y

/-- Sorted timestamps incident to a node (node_timestamps in
compute_transaction_metrics): the code appends the timestamp of every
incident edge on the sender side and on the receiver side, then sorts;
a sorted list of integers only depends on the multiset, so the grouped
concatenation below is the same list. -/
def incident_ts_sorted (G : TxGraph) (a : String) : List ℤ :=
  List.insertionSort intLe
    ((G.filter (fun t => decide (t.sender_id = a))).map (fun t => t.timestamp)
      ++ (G.filter (fun t => decide (t.receiver_id = a))).map (fun t => t.timestamp))

/-- Left pointer advance of the one-hour sliding window (the inner
while loop of compute_transaction_metrics, main.py lines 979-981),
written with explicit fuel; the loop runs at most once per list entry,
so any fuel of at least the list length reaches the loop exit. -/
def hourLeft (ts : List ℤ) (tR : ℤ) : ℕ → ℕ → ℕ
  | 0, left => left
  | fuel + 1, left =>
      if tR - ts.getD left 0 > 3600 then hourLeft ts tR fuel (left + 1) else left

/-- Maximum number of timestamps inside any sliding one-hour window
(max_tx_per_hour in compute_transaction_metrics, main.py lines 975-984);
the window is [left, right] and shrinks while ts[right] - ts[left] > 1h. -/
def max_tx_per_hour (ts : List ℤ) : ℕ :=
  ((List.range ts.length).foldl (fun (st : ℕ × ℕ) r =>
      let l := hourLeft ts (ts.getD r 0) ts.length st.1
      (l, max st.2 (r - l + 1))) (0, 0)).2

/-- Sum of the per-node transaction counts
(sum(node_tx_count.values())). -/
def total_tx_sum (G : TxGraph) : ℕ :=
  ((nodes_sorted G).map (total_tx_count G)).sum

/-- Mean per-node transaction count (avg_tx in
compute_transaction_metrics, main.py lines 964-967), 0 on an empty
graph. -/
def mean_total_tx (G : TxGraph) : ℚ :=
  if (nodes_sorted G).length = 0 then 0
  else (total_tx_sum G : ℚ) / ((nodes_sorted G).length : ℚ)

/-- Merchant test of the account scorer (main.py lines 986-989):
total transactions > 200, or total transactions > 3 x the graph mean
(the float comparison total_tx > avg_tx * 3 is exact here). -/
def is_merchant_scoring (G : TxGraph) (a : String) : Bool :=
  decide (200 < total_tx_count G a)
    || decide (3 * mean_total_tx G < (total_tx_count G a : ℚ))

/-- Per-node metrics record produced by compute_transaction_metrics. -/
structure NodeMetrics where
  total_transactions : ℕ
  max_tx_per_hour : ℕ
  is_merchant : Bool
deriving DecidableEq

/-- Model of compute_transaction_metrics (main.py lines 927-997): one
metrics entry per node, in sorted node order. -/
def compute_transaction_metrics (G : TxGraph) : List (String × NodeMetrics) :=
  (nodes_sorted G).map (fun a =>
    (a, ⟨total_tx_count G a, max_tx_per_hour (incident_ts_sorted G a), is_merchant_scoring G a⟩))

lemma alFind_map_key {α : Type} (f : String → α) :
    ∀ (l : List String) (a : String), a ∈ l →
      alFind (l.map (fun x => (x, f x))) a = some (f a)
  | [], a, ha => absurd ha (List.not_mem_nil a)
  | x :: xs, a, ha => by
      by_cases hx : x = a
      · subst hx
        simp [alFind, List.find?]
      · have ha' : a ∈ xs := by
          rcases List.mem_cons.mp ha with h | h
          · exact absurd h.symm hx
          · exact h
        have := alFind_map_key f xs a ha'
        simpa [alFind, List.find?, hx] using this

/-- C8 (amended): in the account-scorer metrics, an account with
total_transactions = 201 is always a merchant; an account with
total_transactions = 200 is a merchant exactly when 200 exceeds three
times the graph-wide mean transaction count (so 200 is NOT exempt in
general, contrary to the original claim). -/
theorem merchant_threshold_201_200 (G : TxGraph) (a : String) (ha : a ∈ nodes_sorted G) :
    alFind (compute_transaction_metrics G) a
      = some ⟨total_tx_count G a, max_tx_per_hour (incident_ts_sorted G a),
              is_merchant_scoring G a⟩ ∧
    (total_tx_count G a = 201 → is_merchant_scoring G a = true) ∧
    (total_tx_count G a = 200 →
       (is_merchant_scoring G a = true ↔ 3 * mean_total_tx G < 200)) := by
  refine ⟨alFind_map_key _ _ _ ha, ?_, ?_⟩
  · intro h
    unfold is_merchant_scoring
    rw [h]
    simp
  · intro h
    unfold is_merchant_scoring
    rw [h]
    norm_num

/-- Concrete instantiation of merchant_threshold_201_200 on a
two-account graph. -/
theorem merchant_threshold_201_200_witness :
    (let wG : TxGraph := [⟨"t1", "A", "B", 1, 0⟩]
     alFind (compute_transaction_metrics wG) "A"
       = some ⟨total_tx_count wG "A", max_tx_per_hour (incident_ts_sorted wG "A"),
               is_merchant_scoring wG "A"⟩ ∧
     (total_tx_count wG "A" = 201 → is_merchant_scoring wG "A" = true) ∧
     (total_tx_count wG "A" = 200 →
        (is_merchant_scoring wG "A" = true ↔ 3 * mean_total_tx wG < 200))) :=
  merchant_threshold_201_200 [⟨"t1", "A", "B", 1, 0⟩] "A" (by with_unfolding_all decide)

/-- Concrete graph refuting the claim that 200 transactions never make
a merchant: H has 99 self-loops plus two outgoing edges (200 incident
edge-ends) while the graph mean is small. -/
def counterG8 : TxGraph :=
  ((List.range 99).map (fun i =>
    ⟨"s" ++ toString i, "H", "H", 1, (i : ℤ) * 10000⟩)) ++
  [⟨"x1", "H", "A", 1, 990000⟩, ⟨"x2", "H", "B", 1, 1000000⟩,
   ⟨"x3", "C", "D", 1, 1010000⟩]

set_option maxRecDepth 100000 in
/-- C8 counterexample: in counterG8 the account H has exactly 200
total transactions and the account-scorer metrics still classify it as
a merchant (200 > 3 x mean = 122.4), refuting the claim that an account
with total_transactions = 200 is never a merchant. -/
theorem merchant_200_is_merchant_counterexample :
    total_tx_count counterG8 "H" = 200 ∧
    is_merchant_scoring counterG8 "H" = true ∧
    alFind (compute_transaction_metrics counterG8) "H"
      = some ⟨200, max_tx_per_hour (incident_ts_sorted counterG8 "H"), true⟩ := by
  with_unfolding_all decide

/-- Model of SuspiciousAccount (main.py lines 867-872). -/
structure SuspiciousAccount where
  account_id : String
  suspicion_score : ℤ
  involved_rings : List String
  is_merchant : Bool
deriving DecidableEq

/-- Model of build_account_ring_map (main.py lines 884-903): map every
account to the ids of the rings containing it, values sorted. -/
def build_account_ring_map (fraud_rings : List SuspiciousRing) : List (String × List String) :=
  let m := fraud_rings.foldl (fun m ring =>
    ring.members.foldl (fun m member =>
      alSet m member (alGetD m member [] ++ [ring.ring_id])) m) []
  m.map (fun p => (p.1, sortStrings p.2))

/-- Model of apply_velocity_bonus (main.py lines 1000-1028): +20 above
10 tx/hour, else +10 above 5 tx/hour, added only to accounts already
present in the score dict (Python: if bonus and account in updated). -/
def apply_velocity_bonus (scores : List (String × ℤ))
    (metrics : List (String × NodeMetrics)) : List (String × ℤ) :=
  metrics.foldl (fun sc p =>
    let bonus : ℤ := if p.2.max_tx_per_hour > 10 then 20
      else if p.2.max_tx_per_hour > 5 then 10 else 0
    if bonus ≠ 0 ∧ alContains sc p.1 then alSet sc p.1 (alGetD sc p.1 0 + bonus) else sc)
    scores

/-- Model of apply_merchant_penalty (main.py lines 1031-1049): add -50
to every account of the score dict whose metrics flag it as merchant. -/
def apply_merchant_penalty (scores : List (String × ℤ))
    (metrics : List (String × NodeMetrics)) : List (String × ℤ) :=
  scores.map (fun p =>
    if (alGetD metrics p.1 ⟨0, 0, false⟩).is_merchant then (p.1, p.2 + (-50)) else p)

/-- Clamp of build_final_account_list: max(0, min(100, raw)). -/
def clampScore (raw : ℤ) : ℤ := max 0 (min 100 raw)

/-- Sort key order of build_final_account_list (main.py line 1089):
suspicion_score descending, then account_id ascending. -/
def accLe (x y : SuspiciousAccount) : Prop :=
  y.suspicion_score < x.suspicion_score ∨
    (x.suspicion_score = y.suspicion_score ∧ strLe x.account_id y.account_id)

instance : DecidableRel accLe := fun x y =>
  inferInstanceAs (Decidable (_ ∨ _))

instance : IsTotal SuspiciousAccount accLe :=
  ⟨fun x y => by
    rcases lt_trichotomy x.suspicion_score y.suspicion_score with h | h | h
    · exact Or.inr (Or.inl h)
    · rcases total_of strLe x.account_id y.account_id with hs | hs
      · exact Or.inl (Or.inr ⟨h, hs⟩)
      · exact Or.inr (Or.inr ⟨h.symm, hs⟩)
    · exact Or.inl (Or.inl h)⟩

instance : IsTrans SuspiciousAccount accLe :=
  ⟨fun x y z hxy hyz => by
    rcases hxy with h1 | ⟨h1, h1'⟩ <;> rcases hyz with h2 | ⟨h2, h2'⟩
    · exact Or.inl (lt_trans h2 h1)
    · exact Or.inl (h2 ▸ h1)
    · exact Or.inl (h1 ▸ h2)
    · exact Or.inr ⟨h1.trans h2, Trans.trans h1' h2'⟩⟩

/-- Model of build_final_account_list (main.py lines 1052-1090): one
entry per account of the ring map, score clamped to [0, 100], sorted by
score descending then account id ascending. -/
def build_final_account_list (scores : List (String × ℤ))
    (account_to_rings : List (String × List String))
    (metrics : List (String × NodeMetrics)) : List SuspiciousAccount :=
  List.insertionSort accLe (account_to_rings.map (fun p =>
    ⟨p.1, clampScore (alGetD scores p.1 0), sortStrings p.2,
     (alGetD metrics p.1 ⟨0, 0, false⟩).is_merchant⟩))

/-- Model of compute_suspicion_scores (main.py lines 1168-1212): the
full account-scoring chain, returning the sorted account list and the
merchant map over all nodes. -/
def compute_suspicion_scores (G : TxGraph) (fraud_rings : List SuspiciousRing) :
    List SuspiciousAccount × List (String × Bool) :=
  let account_to_rings := build_account_ring_map fraud_rings
  let scores := apply_ring_scores fraud_rings
  let metrics := compute_transaction_metrics G
  let scores2 := apply_velocity_bonus scores metrics
  let scores3 := apply_merchant_penalty scores2 metrics
  let merchant_map := (nodes_sorted G).map (fun a =>
    (a, (alGetD metrics a ⟨0, 0, false⟩).is_merchant))
  (build_final_account_list scores3 account_to_rings metrics, merchant_map)

lemma alContains_iff_mem_keys {α : Type} (m : List (String × α)) (a : String) :
    alContains m a = true ↔ a ∈ alKeys m := by
  unfold alContains alFind alKeys
  rw [show ∀ o : Option (String × α), (o.map (fun p => p.2)).isSome = o.isSome from
    fun o => by cases o <;> rfl]
  rw [List.find?_isSome]
  constructor
  · rintro ⟨p, hp, hpa⟩
    exact List.mem_map.mpr ⟨p, hp, of_decide_eq_true hpa⟩
  · rintro h
    obtain ⟨p, hp, hpa⟩ := List.mem_map.mp h
    exact ⟨p, hp, decide_eq_true hpa⟩

lemma mem_alKeys_alSet {α : Type} (m : List (String × α)) (a : String) (v : α) (b : String) :
    b ∈ alKeys (alSet m a v) ↔ b ∈ alKeys m ∨ b = a := by
  unfold alSet
  by_cases hc : alContains m a
  · rw [if_pos hc]
    have hk : alKeys (m.map (fun p => if p.1 = a then (a, v) else p)) = alKeys m := by
      unfold alKeys
      rw [List.map_map]
      apply List.map_congr_left
      intro p _
      by_cases hp : p.1 = a
      · simp [hp]
      · simp [hp]
    rw [hk]
    constructor
    · exact Or.inl
    · rintro (h | h)
      · exact h
      · exact h ▸ (alContains_iff_mem_keys m a).mp hc
  · rw [if_neg hc]
    unfold alKeys
    rw [List.map_append]
    simp [alKeys]

lemma nodup_alKeys_alSet {α : Type} (m : List (String × α)) (a : String) (v : α)
    (h : (alKeys m).Nodup) : (alKeys (alSet m a v)).Nodup := by
  unfold alSet
  by_cases hc : alContains m a
  · rw [if_pos hc]
    have hk : alKeys (m.map (fun p => if p.1 = a then (a, v) else p)) = alKeys m := by
      unfold alKeys
      rw [List.map_map]
      apply List.map_congr_left
      intro p _
      by_cases hp : p.1 = a
      · simp [hp]
      · simp [hp]
    rw [hk]
    exact h
  · rw [if_neg hc]
    unfold alKeys
    rw [List.map_append]
    refine List.Nodup.append h (by simp) ?_
    intro x hx hx'
    simp only [List.map_cons, List.map_nil, List.mem_singleton] at hx'
    subst hx'
    exact hc ((alContains_iff_mem_keys m x).mpr hx)

lemma mem_keys_member_fold (rid : String) :
    ∀ (ms : List String) (m : List (String × List String)) (b : String),
      (b ∈ alKeys (ms.foldl (fun m k => alSet m k (alGetD m k [] ++ [rid])) m)
        ↔ b ∈ alKeys m ∨ b ∈ ms)
  | [], m, b => by simp
  | k :: ms, m, b => by
      rw [List.foldl_cons, mem_keys_member_fold rid ms _ b, mem_alKeys_alSet]
      constructor
      · rintro ((h | h) | h)
        · exact Or.inl h
        · exact Or.inr (h ▸ List.mem_cons_self k ms)
        · exact Or.inr (List.mem_cons_of_mem k h)
      · rintro (h | h)
        · exact Or.inl (Or.inl h)
        · rcases List.mem_cons.mp h with h' | h'
          · exact Or.inl (Or.inr h')
          · exact Or.inr h'

lemma nodup_keys_member_fold (rid : String) :
    ∀ (ms : List String) (m : List (String × List String)),
      (alKeys m).Nodup →
      (alKeys (ms.foldl (fun m k => alSet m k (alGetD m k [] ++ [rid])) m)).Nodup
  | [], _, h => h
  | k :: ms, m, h => by
      rw [List.foldl_cons]
      exact nodup_keys_member_fold rid ms _ (nodup_alKeys_alSet _ _ _ h)

lemma mem_keys_ring_fold :
    ∀ (rings : List SuspiciousRing) (m : List (String × List String)) (b : String),
      (b ∈ alKeys (rings.foldl (fun m ring =>
          ring.members.foldl (fun m member =>
            alSet m member (alGetD m member [] ++ [ring.ring_id])) m) m)
        ↔ b ∈ alKeys m ∨ ∃ r ∈ rings, b ∈ r.members)
  | [], m, b => by simp
  | ring :: rings, m, b => by
      rw [List.foldl_cons, mem_keys_ring_fold rings _ b, mem_keys_member_fold]
      constructor
      · rintro ((h | h) | ⟨r, hr, hb⟩)
        · exact Or.inl h
        · exact Or.inr ⟨ring, List.mem_cons_self _ _, h⟩
        · exact Or.inr ⟨r, List.mem_cons_of_mem _ hr, hb⟩
      · rintro (h | ⟨r, hr, hb⟩)
        · exact Or.inl (Or.inl h)
        · rcases List.mem_cons.mp hr with h' | h'
          · exact Or.inl (Or.inr (h' ▸ hb))
          · exact Or.inr ⟨r, h', hb⟩

lemma nodup_keys_ring_fold :
    ∀ (rings : List SuspiciousRing) (m : List (String × List String)),
      (alKeys m).Nodup →
      (alKeys (rings.foldl (fun m ring =>
          ring.members.foldl (fun m member =>
            alSet m member (alGetD m member [] ++ [ring.ring_id])) m) m)).Nodup
  | [], _, h => h
  | ring :: rings, m, h => by
      rw [List.foldl_cons]
      exact nodup_keys_ring_fold rings _ (nodup_keys_member_fold _ _ _ h)

lemma alKeys_map_values {α β : Type} (m : List (String × α)) (f : String × α → β) :
    alKeys (m.map (fun p => (p.1, f p))) = alKeys m := by
  unfold alKeys
  rw [List.map_map]
  rfl

lemma mem_keys_build_account_ring_map (rings : List SuspiciousRing) (b : String) :
    b ∈ alKeys (build_account_ring_map rings) ↔ ∃ r ∈ rings, b ∈ r.members := by
  unfold build_account_ring_map
  rw [alKeys_map_values]
  rw [mem_keys_ring_fold rings [] b]
  simp [alKeys]

lemma nodup_keys_build_account_ring_map (rings : List SuspiciousRing) :
    (alKeys (build_account_ring_map rings)).Nodup := by
  unfold build_account_ring_map
  rw [alKeys_map_values]
  exact nodup_keys_ring_fold rings [] (by simp [alKeys])

/-- C6: the output of the account scorer contains exactly the accounts
that belong to at least one of the given final rings (each exactly
once), and is sorted by suspicion_score descending with ties broken by
account_id ascending. -/
theorem account_scorer_output (G : TxGraph) (rings : List SuspiciousRing) :
    (∀ a : String,
        a ∈ (compute_suspicion_scores G rings).1.map (fun s => s.account_id)
          ↔ ∃ r ∈ rings, a ∈ r.members) ∧
    ((compute_suspicion_scores G rings).1.map (fun s => s.account_id)).Nodup ∧
    List.Pairwise (fun x y : SuspiciousAccount =>
        y.suspicion_score < x.suspicion_score ∨
          (x.suspicion_score = y.suspicion_score ∧ strLe x.account_id y.account_id))
      (compute_suspicion_scores G rings).1 := by
  have hperm : ((compute_suspicion_scores G rings).1.map (fun s => s.account_id)).Perm
      (alKeys (build_account_ring_map rings)) := by
    show ((build_final_account_list _ _ _).map (fun s => s.account_id)).Perm _
    unfold build_final_account_list
    refine ((List.perm_insertionSort accLe _).map _).trans ?_
    rw [List.map_map]
    exact List.Perm.refl _
  refine ⟨?_, ?_, ?_⟩
  · intro a
    rw [hperm.mem_iff]
    exact mem_keys_build_account_ring_map rings a
  · exact hperm.nodup_iff.mpr (nodup_keys_build_account_ring_map rings)
  · exact List.sorted_insertionSort accLe _

/-- The 72-hour smurfing window in seconds (_SMURFING_WINDOW). -/
def smurfingWindow : ℤ := 72 * 3600

/-- Merchant exclusion of the smurfing detector (is_merchant, main.py
lines 422-434): more than 100 transactions, incoming plus outgoing. -/
def is_merchant_smurfing (G : TxGraph) (a : String) : Bool :=
  decide (100 < (incoming_list G a).length + (outgoing_list G a).length)

/-- State of the sliding-window sweep shared by detect_fan_in and
detect_fan_out (main.py lines 474-495 and 538-558): left pointer, the
counterparty frequency dict (a dict of positive counts, i.e. exactly a
multiset), and the best window recorded so far. -/
structure SweepState where
  left : ℕ
  freq : Multiset String
  bestUnique : ℕ
  bestLeft : ℕ
  bestRight : ℕ

/-- The inner while loop of the sweep (main.py lines 485-490): drop
entries from the left while the window spans more than 72 hours,
decrementing the frequency dict (erasing one multiset occurrence).
Fuel-indexed; the loop runs at most once per list entry, so fuel equal
to the list length always reaches the loop exit. -/
def sweepShrink (parsed : List (ℤ × String)) (tR : ℤ) :
    ℕ → ℕ → Multiset String → ℕ × Multiset String
  | 0, left, freq => (left, freq)
  | fuel + 1, left, freq =>
      if left < parsed.length ∧ tR - (parsed.getD left (0, "")).1 > smurfingWindow then
        sweepShrink parsed tR fuel (left + 1) (freq.erase (parsed.getD left (0, "")).2)
      else (left, freq)

/-- One iteration of the sweep at window end right (main.py lines
480-495): count the new entry, shrink from the left, and record the
window if it strictly beats the best distinct count seen so far. -/
def sweepStep (parsed : List (ℤ × String)) (st : SweepState) (right : ℕ) : SweepState :=
  let t := (parsed.getD right (0, "")).1
  let s := (parsed.getD right (0, "")).2
  let res := sweepShrink parsed t parsed.length st.left (s ::ₘ st.freq)
  if st.bestUnique < res.2.toFinset.card then
    ⟨res.1, res.2, res.2.toFinset.card, res.1, right⟩
  else
    ⟨res.1, res.2, st.bestUnique, st.bestLeft, st.bestRight⟩

/-- Sweep state after processing window ends 0 .. k-1. -/
def sweepAux (parsed : List (ℤ × String)) (k : ℕ) : SweepState :=
  (List.range k).foldl (sweepStep parsed) ⟨0, 0, 0, 0, 0⟩

/-- The full sweep over a parsed (timestamp, counterparty) list. -/
def fanSweep (parsed : List (ℤ × String)) : SweepState :=
  sweepAux parsed parsed.length

/-- Counterparties of the window entries at positions l .. k-1. -/
def windowList (parsed : List (ℤ × String)) (l k : ℕ) : List String :=
  ((parsed.take k).drop l).map (fun p => p.2)

/-- Counterparties of the window entries at positions l .. r
(senders_in_window, main.py lines 498-500, as a list with
multiplicity). -/
def windowSenders (parsed : List (ℤ × String)) (l r : ℕ) : List String :=
  windowList parsed l (r + 1)

/-- Left pointer of the sweep just after processing window end j. -/
def leftTrace (parsed : List (ℤ × String)) (j : ℕ) : ℕ :=
  (sweepAux parsed (j + 1)).left

/-- Number of distinct counterparties in the window the sweep holds at
end j (len(sender_freq) at that iteration). -/
def windowCount (parsed : List (ℤ × String)) (j : ℕ) : ℕ :=
  ((windowSenders parsed (leftTrace parsed j) j).dedup).length

/-- A raw ring emitted by a detector before ids are assigned. -/
structure RawRing where
  members : List String
  pattern : String
deriving DecidableEq

/-- The parsed (timestamp, sender) pairs of incoming_map[receiver]
(main.py lines 469-471). -/
def fanInParsed (G : TxGraph) (receiver : String) : List (ℤ × String) :=
  (incoming_list G receiver).map (fun t => (t.timestamp, t.sender_id))

/-- Candidate fan-in ring members for one receiver: the body of the
detect_fan_in loop (main.py lines 461-506) minus the seen_accounts
bookkeeping; none when the receiver is skipped. The emitted members are
sorted({senders in best window} | {receiver}). -/
def fanInRingFor (G : TxGraph) (receiver : String) : Option (List String) :=
  if is_merchant_smurfing G receiver then none
  else if (incoming_list G receiver).length < 10 then none
  else
    let sw := fanSweep (fanInParsed G receiver)
    if 10 ≤ sw.bestUnique then
      some (sortStrings
        ((receiver :: windowSenders (fanInParsed G receiver) sw.bestLeft sw.bestRight).dedup))
    else none

/-- Model of detect_fan_in (main.py lines 444-508): receivers iterated
in sorted key order, with the (function-local) seen_accounts set; an
account is added to seen exactly when its ring is emitted. -/
def detect_fan_in (G : TxGraph) : List RawRing :=
  ((incoming_keys G).foldl (fun (st : List RawRing × List String) receiver =>
    if receiver ∈ st.2 then st
    else
      match fanInRingFor G receiver with
      | some ms => (st.1 ++ [⟨ms, "smurfing_fan_in"⟩], st.2 ++ [receiver])
      | none => st) ([], [])).1

/-- The parsed (timestamp, receiver) pairs of outgoing_map[sender]
(main.py lines 534-536). -/
def fanOutParsed (G : TxGraph) (sender : String) : List (ℤ × String) :=
  (outgoing_list G sender).map (fun t => (t.timestamp, t.receiver_id))

/-- Candidate fan-out ring members for one sender: the body of the
detect_fan_out loop (main.py lines 524-569), symmetric to fan-in with
the outgoing map and receiver ids. -/
def fanOutRingFor (G : TxGraph) (sender : String) : Option (List String) :=
  if is_merchant_smurfing G sender then none
  else if (outgoing_list G sender).length < 10 then none
  else
    let sw := fanSweep (fanOutParsed G sender)
    if 10 ≤ sw.bestUnique then
      some (sortStrings
        ((sender :: windowSenders (fanOutParsed G sender) sw.bestLeft sw.bestRight).dedup))
    else none

/-- Model of detect_fan_out (main.py lines 511-571): senders iterated
in sorted key order, with its own local seen_accounts set, disjoint
from the fan-in one. -/
def detect_fan_out (G : TxGraph) : List RawRing :=
  ((outgoing_keys G).foldl (fun (st : List RawRing × List String) sender =>
    if sender ∈ st.2 then st
    else
      match fanOutRingFor G sender with
      | some ms => (st.1 ++ [⟨ms, "smurfing_fan_out"⟩], st.2 ++ [sender])
      | none => st) ([], [])).1

/-- RING_SM ids assigned by smurfing_detector (main.py lines 586-595). -/
def smurfing_ring_ids_from (idx : ℕ) : List RawRing → List SuspiciousRing
  | [] => []
  | r :: rs =>
      ⟨"RING_SM_" ++ padZeroes 3 (toString idx), r.members, r.pattern, none, none, none⟩
        :: smurfing_ring_ids_from (idx + 1) rs

/-- Model of smurfing_detector (main.py lines 574-597): the fan-in raw
rings followed by the fan-out raw rings, with sequential RING_SM ids. -/
def smurfing_detector (G : TxGraph) : List SuspiciousRing :=
  smurfing_ring_ids_from 1 (detect_fan_in G ++ detect_fan_out G)

/-- Concrete input for the fan-in / fan-out independence question: R
receives once from each of S0..S9 inside 72 hours and also sends once
to each of T0..T9 inside 72 hours; R is no merchant (20 transactions). -/
def counterG3 : TxGraph :=
  ((List.range 10).map (fun i =>
    ⟨"i" ++ toString i, "S" ++ toString i, "R", 1, (i : ℤ)⟩)) ++
  ((List.range 10).map (fun i =>
    ⟨"o" ++ toString i, "R", "T" ++ toString i, 1, 100 + (i : ℤ)⟩))

/-- C3 counterexample: on counterG3 the smurfing detector emits BOTH a
fan-in ring hubbed at R and a fan-out ring hubbed at R in the same run
(each detector keeps its own local seen_accounts set, so emitting the
fan-in ring does not consume R for fan-out), refuting the claim that no
account is the hub of both in the same run. -/
theorem fan_in_hub_also_fan_out_hub_counterexample :
    detect_fan_in counterG3 =
      [⟨["R", "S0", "S1", "S2", "S3", "S4", "S5", "S6", "S7", "S8", "S9"],
        "smurfing_fan_in"⟩] ∧
    detect_fan_out counterG3 =
      [⟨["R", "T0", "T1", "T2", "T3", "T4", "T5", "T6", "T7", "T8", "T9"],
        "smurfing_fan_out"⟩] ∧
    (smurfing_detector counterG3).map (fun r => (r.ring_id, r.pattern, decide ("R" ∈ r.members))) =
      [("RING_SM_001", "smurfing_fan_in", true), ("RING_SM_002", "smurfing_fan_out", true)] := by
  with_unfolding_all decide

lemma fan_fold_spec (pat : String) (f : String → Option (List String)) :
    ∀ (keys : List String) (acc : List RawRing) (seen : List String),
      (∀ k ∈ keys, k ∉ seen) → keys.Nodup →
      (keys.foldl (fun (st : List RawRing × List String) receiver =>
        if receiver ∈ st.2 then st
        else
          match f receiver with
          | some ms => (st.1 ++ [⟨ms, pat⟩], st.2 ++ [receiver])
          | none => st) (acc, seen)).1
      = acc ++ keys.filterMap (fun r => (f r).map (fun ms => (⟨ms, pat⟩ : RawRing)))
  | [], acc, seen, _, _ => by simp
  | k :: keys, acc, seen, hseen, hnd => by
      rw [List.foldl_cons]
      have hk : k ∉ seen := hseen k (List.mem_cons_self k keys)
      rw [if_neg hk]
      have hnd' : keys.Nodup := (List.nodup_cons.mp hnd).2
      have hknotin : k ∉ keys := (List.nodup_cons.mp hnd).1
      cases hf : f k with
      | some ms =>
          have hseen' : ∀ k' ∈ keys, k' ∉ seen ++ [k] := by
            intro k' hk' hmem
            rcases List.mem_append.mp hmem with h | h
            · exact hseen k' (List.mem_cons_of_mem k hk') h
            · rw [List.mem_singleton] at h
              exact hknotin (h ▸ hk')
          rw [fan_fold_spec pat f keys _ _ hseen' hnd']
          simp [List.filterMap_cons, hf]
      | none =>
          have hseen' : ∀ k' ∈ keys, k' ∉ seen :=
            fun k' hk' => hseen k' (List.mem_cons_of_mem k hk')
          rw [fan_fold_spec pat f keys _ _ hseen' hnd']
          simp [List.filterMap_cons, hf]

lemma nodup_sortStrings {l : List String} (h : l.Nodup) : (sortStrings l).Nodup :=
  (List.perm_insertionSort strLe l).nodup_iff.mpr h

lemma nodup_incoming_keys (G : TxGraph) : (incoming_keys G).Nodup :=
  nodup_sortStrings (List.nodup_dedup _)

lemma nodup_outgoing_keys (G : TxGraph) : (outgoing_keys G).Nodup :=
  nodup_sortStrings (List.nodup_dedup _)

lemma smurfing_ring_ids_members :
    ∀ (idx : ℕ) (l : List RawRing),
      (smurfing_ring_ids_from idx l).map (fun r => (r.members, r.pattern))
        = l.map (fun r => (r.members, r.pattern))
  | _, [] => rfl
  | idx, r :: rs => by
      rw [smurfing_ring_ids_from, List.map_cons, List.map_cons,
        smurfing_ring_ids_members (idx + 1) rs]

lemma detect_fan_in_eq (G : TxGraph) :
    detect_fan_in G = (incoming_keys G).filterMap
      (fun r => (fanInRingFor G r).map (fun ms => (⟨ms, "smurfing_fan_in"⟩ : RawRing))) := by
  unfold detect_fan_in
  rw [fan_fold_spec "smurfing_fan_in" (fanInRingFor G) (incoming_keys G) [] []
    (by intro k _ hk; cases hk) (nodup_incoming_keys G)]
  rfl

lemma detect_fan_out_eq (G : TxGraph) :
    detect_fan_out G = (outgoing_keys G).filterMap
      (fun r => (fanOutRingFor G r).map (fun ms => (⟨ms, "smurfing_fan_out"⟩ : RawRing))) := by
  unfold detect_fan_out
  rw [fan_fold_spec "smurfing_fan_out" (fanOutRingFor G) (outgoing_keys G) [] []
    (by intro k _ hk; cases hk) (nodup_outgoing_keys G)]
  rfl

/-- C3 (amended): the seen_accounts set of detect_fan_in is local to the
fan-in pass, so fan-in and fan-out are computed independently: each pass
emits exactly the rings of its qualifying hubs in sorted key order, and
the smurfing detector concatenates both lists; emitting a fan-in ring
for an account does NOT prevent the same account from hubbing a fan-out
ring in the same run. -/
theorem smurfing_fan_in_out_independent (G : TxGraph) :
    detect_fan_in G = (incoming_keys G).filterMap
        (fun r => (fanInRingFor G r).map (fun ms => (⟨ms, "smurfing_fan_in"⟩ : RawRing))) ∧
    detect_fan_out G = (outgoing_keys G).filterMap
        (fun r => (fanOutRingFor G r).map (fun ms => (⟨ms, "smurfing_fan_out"⟩ : RawRing))) ∧
    (smurfing_detector G).map (fun r => (r.members, r.pattern))
      = (detect_fan_in G).map (fun r => (r.members, r.pattern))
        ++ (detect_fan_out G).map (fun r => (r.members, r.pattern)) := by
  refine ⟨detect_fan_in_eq G, detect_fan_out_eq G, ?_⟩
  unfold smurfing_detector
  rw [smurfing_ring_ids_members 1, List.map_append]

lemma sweepShrink_succ (parsed : List (ℤ × String)) (tR : ℤ) (fuel left : ℕ)
    (freq : Multiset String) :
    sweepShrink parsed tR (fuel + 1) left freq =
      if left < parsed.length ∧ tR - (parsed.getD left (0, "")).1 > smurfingWindow then
        sweepShrink parsed tR fuel (left + 1) (freq.erase (parsed.getD left (0, "")).2)
      else (left, freq) := rfl

lemma windowList_cons (parsed : List (ℤ × String)) {l k : ℕ}
    (hl : l < k) (hk : k ≤ parsed.length) :
    windowList parsed l k = (parsed.getD l (0, "")).2 :: windowList parsed (l + 1) k := by
  unfold windowList
  have hlen : l < parsed.length := lt_of_lt_of_le hl hk
  have h1 : l < (parsed.take k).length := by
    rw [List.length_take]
    exact lt_min hl hlen
  rw [List.drop_eq_getElem_cons h1, List.map_cons]
  congr 2
  rw [List.getElem_take, List.getD_eq_getElem parsed _ hlen]

lemma windowList_snoc (parsed : List (ℤ × String)) {l k : ℕ}
    (hl : l ≤ k) (hk : k < parsed.length) :
    windowList parsed l (k + 1) = windowList parsed l k ++ [(parsed.getD k (0, "")).2] := by
  unfold windowList
  rw [List.take_succ, List.getElem?_eq_getElem hk]
  have hlen : l ≤ (parsed.take k).length := by
    rw [List.length_take]
    exact le_min hl (le_trans hl (le_of_lt hk))
  rw [show (some parsed[k]).toList = [parsed[k]] from rfl,
    List.drop_append_of_le_length hlen, List.map_append]
  congr 1
  rw [List.map_singleton, List.getD_eq_getElem parsed (0, "") hk]

lemma sweepShrink_spec (parsed : List (ℤ × String)) (k : ℕ) (hk : k < parsed.length) :
    ∀ (fuel left : ℕ) (freq : Multiset String), left ≤ k → k - left < fuel →
      freq = (windowList parsed left (k + 1) : Multiset String) →
      left ≤ (sweepShrink parsed (parsed.getD k (0, "")).1 fuel left freq).1 ∧
      (sweepShrink parsed (parsed.getD k (0, "")).1 fuel left freq).1 ≤ k ∧
      (sweepShrink parsed (parsed.getD k (0, "")).1 fuel left freq).2 =
        (windowList parsed (sweepShrink parsed (parsed.getD k (0, "")).1 fuel left freq).1 (k + 1)
          : Multiset String)
  | 0, left, freq, hl, hfuel, hfreq => absurd hfuel (by omega)
  | fuel + 1, left, freq, hl, hfuel, hfreq => by
      rw [sweepShrink_succ]
      by_cases hcond : left < parsed.length ∧
          (parsed.getD k (0, "")).1 - (parsed.getD left (0, "")).1 > smurfingWindow
      · rw [if_pos hcond]
        have hlk : left < k := by
          rcases lt_or_eq_of_le hl with h | h
          · exact h
          · exfalso
            have h2 := hcond.2
            rw [h] at h2
            simp only [sub_self] at h2
            norm_num [smurfingWindow] at h2
        have hfreq' : freq.erase (parsed.getD left (0, "")).2 =
            (windowList parsed (left + 1) (k + 1) : Multiset String) := by
          rw [hfreq, windowList_cons parsed (Nat.lt_succ_of_lt hlk) hk,
            ← Multiset.cons_coe, Multiset.erase_cons_head]
        obtain ⟨h1, h2, h3⟩ :=
          sweepShrink_spec parsed k hk fuel (left + 1) _ hlk (by omega) hfreq'
        exact ⟨le_trans (Nat.le_succ left) h1, h2, h3⟩
      · rw [if_neg hcond]
        exact ⟨le_refl _, hl, hfreq⟩

lemma sweepAux_succ (parsed : List (ℤ × String)) (k : ℕ) :
    sweepAux parsed (k + 1) = sweepStep parsed (sweepAux parsed k) k := by
  unfold sweepAux
  rw [List.range_succ, List.foldl_append, List.foldl_cons, List.foldl_nil]

lemma sweepStep_left (parsed : List (ℤ × String)) (st : SweepState) (right : ℕ) :
    (sweepStep parsed st right).left =
      (sweepShrink parsed (parsed.getD right (0, "")).1 parsed.length st.left
        ((parsed.getD right (0, "")).2 ::ₘ st.freq)).1 := by
  unfold sweepStep
  dsimp only
  split <;> rfl

lemma sweepStep_freq (parsed : List (ℤ × String)) (st : SweepState) (right : ℕ) :
    (sweepStep parsed st right).freq =
      (sweepShrink parsed (parsed.getD right (0, "")).1 parsed.length st.left
        ((parsed.getD right (0, "")).2 ::ₘ st.freq)).2 := by
  unfold sweepStep
  dsimp only
  split <;> rfl

lemma sweepAux_left_freq (parsed : List (ℤ × String)) :
    ∀ k, k ≤ parsed.length →
      (sweepAux parsed k).left ≤ k - 1 ∧
      (sweepAux parsed k).freq =
        (windowList parsed (sweepAux parsed k).left k : Multiset String)
  | 0, _ => ⟨le_refl _, rfl⟩
  | k + 1, hk1 => by
      have hk : k < parsed.length := hk1
      obtain ⟨ihl, ihf⟩ := sweepAux_left_freq parsed k (le_of_lt hk)
      have hlk : (sweepAux parsed k).left ≤ k := le_trans ihl (Nat.sub_le k 1)
      have hin : (parsed.getD k (0, "")).2 ::ₘ (sweepAux parsed k).freq =
          (windowList parsed (sweepAux parsed k).left (k + 1) : Multiset String) := by
        rw [ihf, windowList_snoc parsed hlk hk, Multiset.cons_coe, Multiset.coe_eq_coe]
        exact (List.perm_append_singleton _ _).symm
      obtain ⟨h1, h2, h3⟩ := sweepShrink_spec parsed k hk parsed.length
        (sweepAux parsed k).left _ hlk (by omega) hin
      rw [sweepAux_succ]
      constructor
      · rw [sweepStep_left]
        simpa using h2
      · rw [sweepStep_left, sweepStep_freq]
        exact h3

lemma leftTrace_le (parsed : List (ℤ × String)) (k : ℕ) (hk : k < parsed.length) :
    leftTrace parsed k ≤ k := by
  have h := (sweepAux_left_freq parsed (k + 1) hk).1
  simpa [leftTrace] using h

lemma windowCount_eq_card (parsed : List (ℤ × String)) (k : ℕ) (hk : k < parsed.length) :
    leftTrace parsed k =
      (sweepShrink parsed (parsed.getD k (0, "")).1 parsed.length (sweepAux parsed k).left
        ((parsed.getD k (0, "")).2 ::ₘ (sweepAux parsed k).freq)).1 ∧
    (sweepShrink parsed (parsed.getD k (0, "")).1 parsed.length (sweepAux parsed k).left
        ((parsed.getD k (0, "")).2 ::ₘ (sweepAux parsed k).freq)).2.toFinset.card =
      windowCount parsed k := by
  obtain ⟨ihl, ihf⟩ := sweepAux_left_freq parsed k (le_of_lt hk)
  have hlk : (sweepAux parsed k).left ≤ k := le_trans ihl (Nat.sub_le k 1)
  have hin : (parsed.getD k (0, "")).2 ::ₘ (sweepAux parsed k).freq =
      (windowList parsed (sweepAux parsed k).left (k + 1) : Multiset String) := by
    rw [ihf, windowList_snoc parsed hlk hk, Multiset.cons_coe, Multiset.coe_eq_coe]
    exact (List.perm_append_singleton _ _).symm
  obtain ⟨h1, h2, h3⟩ := sweepShrink_spec parsed k hk parsed.length
    (sweepAux parsed k).left _ hlk (by omega) hin
  have hlt : leftTrace parsed k =
      (sweepShrink parsed (parsed.getD k (0, "")).1 parsed.length (sweepAux parsed k).left
        ((parsed.getD k (0, "")).2 ::ₘ (sweepAux parsed k).freq)).1 := by
    rw [leftTrace, sweepAux_succ, sweepStep_left]
  refine ⟨hlt, ?_⟩
  rw [h3]
  show (windowList parsed _ (k + 1)).toFinset.card = _
  rw [List.card_toFinset]
  unfold windowCount windowSenders
  rw [hlt]

lemma windowCount_pos (parsed : List (ℤ × String)) (k : ℕ) (hk : k < parsed.length) :
    0 < windowCount parsed k := by
  unfold windowCount windowSenders
  have hlt : leftTrace parsed k ≤ k := leftTrace_le parsed k hk
  have hlen : 0 < (windowList parsed (leftTrace parsed k) (k + 1)).length := by
    unfold windowList
    rw [List.length_map, List.length_drop, List.length_take]
    omega
  have hne : windowList parsed (leftTrace parsed k) (k + 1) ≠ [] :=
    List.ne_nil_of_length_pos hlen
  have : (windowList parsed (leftTrace parsed k) (k + 1)).dedup ≠ [] := by
    intro hcon
    exact hne ((List.dedup_eq_nil _).mp hcon)
  exact List.length_pos.mpr this

lemma sweepStep_eq (parsed : List (ℤ × String)) (st : SweepState) (right : ℕ) :
    sweepStep parsed st right =
      (let res := sweepShrink parsed (parsed.getD right (0, "")).1 parsed.length st.left
          ((parsed.getD right (0, "")).2 ::ₘ st.freq)
       if st.bestUnique < res.2.toFinset.card then
         ⟨res.1, res.2, res.2.toFinset.card, res.1, right⟩
       else ⟨res.1, res.2, st.bestUnique, st.bestLeft, st.bestRight⟩) := rfl

lemma sweepAux_best (parsed : List (ℤ × String)) :
    ∀ k, k ≤ parsed.length →
      (k = 0 ∧ sweepAux parsed k = ⟨0, 0, 0, 0, 0⟩) ∨
      (1 ≤ k ∧
        (sweepAux parsed k).bestRight < k ∧
        (sweepAux parsed k).bestLeft = leftTrace parsed (sweepAux parsed k).bestRight ∧
        (sweepAux parsed k).bestUnique = windowCount parsed (sweepAux parsed k).bestRight ∧
        (∀ j, j < k → windowCount parsed j ≤ (sweepAux parsed k).bestUnique) ∧
        (∀ j, j < (sweepAux parsed k).bestRight →
          windowCount parsed j < (sweepAux parsed k).bestUnique))
  | 0, _ => Or.inl ⟨rfl, rfl⟩
  | k + 1, hk1 => by
      have hk : k < parsed.length := hk1
      obtain ⟨hlt, hcard⟩ := windowCount_eq_card parsed k hk
      rw [sweepAux_succ, sweepStep_eq]
      dsimp only
      rcases sweepAux_best parsed k (le_of_lt hk) with ⟨hk0, hinit⟩ | ⟨hk1', hbr, hbl, hbu, hall, hstrict⟩
      · subst hk0
        have hpos : 0 < windowCount parsed 0 := windowCount_pos parsed 0 hk
        rw [hinit]
        rw [hinit] at hcard hlt
        have hup : (0 : ℕ) < (sweepShrink parsed (parsed.getD 0 (0, "")).1 parsed.length
            (0 : ℕ) ((parsed.getD 0 (0, "")).2 ::ₘ (0 : Multiset String))).2.toFinset.card := by
          rw [hcard]
          exact hpos
        rw [if_pos hup]
        refine Or.inr ⟨le_refl _, Nat.lt_succ_self 0, ?_, ?_, ?_, ?_⟩
        · exact hlt.symm
        · exact hcard
        · intro j hj
          have hj0 : j = 0 := by omega
          subst hj0
          rw [hcard]
        · intro j hj
          have hj0 : j < 0 := hj
          exact absurd hj0 (Nat.not_lt_zero j)
      · by_cases hup : (sweepAux parsed k).bestUnique <
            (sweepShrink parsed (parsed.getD k (0, "")).1 parsed.length (sweepAux parsed k).left
              ((parsed.getD k (0, "")).2 ::ₘ (sweepAux parsed k).freq)).2.toFinset.card
        · rw [if_pos hup]
          refine Or.inr ⟨by omega, Nat.lt_succ_self k, hlt.symm, hcard, ?_, ?_⟩
          · intro j hj
            rcases Nat.lt_succ_iff_lt_or_eq.mp hj with h | h
            · rw [hcard] at hup ⊢
              exact le_of_lt (lt_of_le_of_lt (hall j h) hup)
            · subst h
              rw [hcard]
          · intro j hj
            rw [hcard] at hup ⊢
            exact lt_of_le_of_lt (hall j hj) hup
        · rw [if_neg hup]
          refine Or.inr ⟨by omega, Nat.lt_succ_of_lt hbr, hbl, hbu, ?_, hstrict⟩
          intro j hj
          rcases Nat.lt_succ_iff_lt_or_eq.mp hj with h | h
          · exact hall j h
          · subst h
            rw [← hcard]
            exact not_lt.mp hup

/-- C7: for every non-merchant account r with at least 10 incoming
transactions, the window [bestLeft, bestRight] the fan-in sweep settles
on is the first window of the left-to-right sweep that attains the
maximum distinct-sender count (every earlier window has a strictly
smaller count, so a later window with an equal count never replaces
it), and when the ring fires its members are exactly the distinct
senders at positions bestLeft..bestRight together with r. -/
theorem fan_in_first_max_window (G : TxGraph) (r : String)
    (hm : is_merchant_smurfing G r = false)
    (hlen : 10 ≤ (incoming_list G r).length) :
    (∀ j, j < (fanInParsed G r).length →
        windowCount (fanInParsed G r) j ≤ (fanSweep (fanInParsed G r)).bestUnique) ∧
    windowCount (fanInParsed G r) (fanSweep (fanInParsed G r)).bestRight
      = (fanSweep (fanInParsed G r)).bestUnique ∧
    (∀ j, j < (fanSweep (fanInParsed G r)).bestRight →
        windowCount (fanInParsed G r) j < (fanSweep (fanInParsed G r)).bestUnique) ∧
    (fanSweep (fanInParsed G r)).bestLeft
      = leftTrace (fanInParsed G r) (fanSweep (fanInParsed G r)).bestRight ∧
    (fanSweep (fanInParsed G r)).bestRight < (fanInParsed G r).length ∧
    (10 ≤ (fanSweep (fanInParsed G r)).bestUnique →
      fanInRingFor G r = some (sortStrings
        ((r :: windowSenders (fanInParsed G r) (fanSweep (fanInParsed G r)).bestLeft
          (fanSweep (fanInParsed G r)).bestRight).dedup))) := by
  have hplen : 10 ≤ (fanInParsed G r).length := by
    unfold fanInParsed
    rw [List.length_map]
    exact hlen
  rcases sweepAux_best (fanInParsed G r) (fanInParsed G r).length (le_refl _) with
    ⟨h0, _⟩ | ⟨_, hbr, hbl, hbu, hall, hstrict⟩
  · omega
  · refine ⟨hall, hbu.symm, hstrict, hbl, hbr, ?_⟩
    intro h10
    unfold fanInRingFor
    rw [if_neg (by simp [hm]), if_neg (by omega : ¬ (incoming_list G r).length < 10)]
    dsimp only
    rw [if_pos h10]

/-- Concrete instantiation of fan_in_first_max_window: ten senders,
each sending once to R inside the 72-hour window. -/
def witnessG7 : TxGraph :=
  (List.range 10).map (fun i =>
    ⟨"w" ++ toString i, "S" ++ toString i, "R", 1, (i : ℤ)⟩)

/-- Witness for fan_in_first_max_window at witnessG7 and receiver R. -/
theorem fan_in_first_max_window_witness :
    (∀ j, j < (fanInParsed witnessG7 "R").length →
        windowCount (fanInParsed witnessG7 "R") j
          ≤ (fanSweep (fanInParsed witnessG7 "R")).bestUnique) ∧
    windowCount (fanInParsed witnessG7 "R") (fanSweep (fanInParsed witnessG7 "R")).bestRight
      = (fanSweep (fanInParsed witnessG7 "R")).bestUnique ∧
    (∀ j, j < (fanSweep (fanInParsed witnessG7 "R")).bestRight →
        windowCount (fanInParsed witnessG7 "R") j
          < (fanSweep (fanInParsed witnessG7 "R")).bestUnique) ∧
    (fanSweep (fanInParsed witnessG7 "R")).bestLeft
      = leftTrace (fanInParsed witnessG7 "R") (fanSweep (fanInParsed witnessG7 "R")).bestRight ∧
    (fanSweep (fanInParsed witnessG7 "R")).bestRight < (fanInParsed witnessG7 "R").length ∧
    (10 ≤ (fanSweep (fanInParsed witnessG7 "R")).bestUnique →
      fanInRingFor witnessG7 "R" = some (sortStrings
        ((("R") :: windowSenders (fanInParsed witnessG7 "R")
          (fanSweep (fanInParsed witnessG7 "R")).bestLeft
          (fanSweep (fanInParsed witnessG7 "R")).bestRight).dedup))) :=
  fan_in_first_max_window witnessG7 "R" (by with_unfolding_all decide)
    (by with_unfolding_all decide)

/-- Model of filter_valid_cycles (main.py lines 281-291): keep cycles
of 3 to 5 nodes. -/
def filter_valid_cycles (cycles : List (List String)) : List (List String) :=
  cycles.filter (fun c => decide (3 ≤ c.length ∧ c.length ≤ 5))

/-- Total amount and parallel-edge count between an ordered node pair
(the inner loop of calculate_ring_metrics, main.py lines 309-317). -/
def edgeStats (G : TxGraph) (u v : String) : ℚ × ℕ :=
  let es := G.filter (fun t => decide (t.sender_id = u ∧ t.receiver_id = v))
  ((es.map (fun t => t.amount)).sum, es.length)

/-- Model of calculate_ring_metrics (main.py lines 294-327): sum amount
and count over the consecutive wrap-around pairs of the cycle, with the
provisional risk min(total/100000 + 0.1 x count, 10); total, count,
provisional risk, in that order. -/
def calculate_ring_metrics (cycle : List String) (G : TxGraph) : ℚ × ℕ × ℚ :=
  let totals := (List.range cycle.length).foldl (fun (acc : ℚ × ℕ) i =>
    let st := edgeStats G (cycle.getD i "") (cycle.getD ((i + 1) % cycle.length) "")
    (acc.1 + st.1, acc.2 + st.2)) (0, 0)
  (totals.1, totals.2, min (totals.1 / 100000 + (totals.2 : ℚ) * (1 / 10)) 10)

/-- Model of build_cycle_rings (main.py lines 330-355) with the 1-based
enumeration index explicit; no sorting of the ring list happens here,
each ring only sorts its own member list. -/
def build_cycle_rings_from (G : TxGraph) (idx : ℕ) : List (List String) → List SuspiciousRing
  | [] => []
  | c :: cs =>
      ⟨ringIdNum idx, sortStrings c, "cycle",
        some (calculate_ring_metrics c G).2.2,
        some (calculate_ring_metrics c G).1,
        some (calculate_ring_metrics c G).2.1⟩
        :: build_cycle_rings_from G (idx + 1) cs

/-- Model of build_cycle_rings. -/
def build_cycle_rings (valid_cycles : List (List String)) (G : TxGraph) :
    List SuspiciousRing :=
  build_cycle_rings_from G 1 valid_cycles

/-- Model of cycle_detector (main.py lines 358-370). detect_cycles
calls networkx.simple_cycles on the simple projection of G; the
enumeration that third-party call returns is passed here as the cycles
argument (an oracle): a list of elementary cycles of the simple
projection, each in traversal order. -/
def cycle_detector (G : TxGraph) (cycles : List (List String)) : List SuspiciousRing :=
  build_cycle_rings (filter_valid_cycles cycles) G

/-- A node list is an elementary cycle of the simple projection of G:
nonempty, no repeated node, and an edge between every consecutive pair
including the wrap-around pair. -/
def isElementaryCycle (G : TxGraph) (c : List String) : Prop :=
  c ≠ [] ∧ c.Nodup ∧ ∀ i, i < c.length →
    ∃ t ∈ G, t.sender_id = c.getD i "" ∧ t.receiver_id = c.getD ((i + 1) % c.length) ""

instance (G : TxGraph) (c : List String) : Decidable (isElementaryCycle G c) :=
  inferInstanceAs (Decidable (_ ∧ _ ∧ _))

/-- Python tuple comparison of string lists: lexicographic with the
code-point string order. -/
def listLexLeB : List String → List String → Bool
  | [], _ => true
  | _ :: _, [] => false
  | a :: as, b :: bs => if a = b then listLexLeB as bs else charListLeB a.data b.data

/-- Two disjoint directed triangles; inserting the D-E-F edges first
makes every insertion-order-based cycle enumeration list the D-triangle
before the A-triangle. -/
def counterG4 : TxGraph :=
  [⟨"d1", "D", "E", 1, 0⟩, ⟨"d2", "E", "F", 1, 10⟩, ⟨"d3", "F", "D", 1, 20⟩,
   ⟨"a1", "A", "B", 1, 30⟩, ⟨"a2", "B", "C", 1, 40⟩, ⟨"a3", "C", "A", 1, 50⟩]

/-- The enumeration of the elementary cycles of counterG4 in its edge
insertion order (the order networkx.simple_cycles yields for it). -/
def counterCycles4 : List (List String) := [["D", "E", "F"], ["A", "B", "C"]]

/-- C4 counterexample: both entries of counterCycles4 are genuine
elementary 3-cycles of counterG4, yet the ring list the cycle detector
passes to the aggregator keeps the enumeration order, whose sorted
member tuples are NOT ascending (["D","E","F"] comes before
["A","B","C"]): the cycle detector performs no sort of the ring list. -/
theorem cycle_rings_not_sorted_counterexample :
    (∀ c ∈ counterCycles4, isElementaryCycle counterG4 c ∧ 3 ≤ c.length ∧ c.length ≤ 5) ∧
    (cycle_detector counterG4 counterCycles4).map (fun r => r.members)
      = [["D", "E", "F"], ["A", "B", "C"]] ∧
    listLexLeB (sortStrings ["D", "E", "F"]) (sortStrings ["A", "B", "C"]) = false := by
  with_unfolding_all decide

lemma build_cycle_rings_from_proj (G : TxGraph) :
    ∀ (idx : ℕ) (cs : List (List String)),
      (build_cycle_rings_from G idx cs).map (fun r => (r.members, r.pattern))
        = cs.map (fun c => (sortStrings c, "cycle"))
  | _, [] => rfl
  | idx, c :: cs => by
      rw [build_cycle_rings_from, List.map_cons, List.map_cons,
        build_cycle_rings_from_proj G (idx + 1) cs]

/-- C4 (amended): the cycle detector emits its rings in the order of
the cycle enumeration it is given, sorting each ring's own member list
but never re-sorting the ring list; the list passed to the aggregator
is sorted by member tuple only when the enumeration happens to be. -/
theorem cycle_detector_preserves_enumeration_order (G : TxGraph) (cycles : List (List String)) :
    (cycle_detector G cycles).map (fun r => (r.members, r.pattern))
      = (filter_valid_cycles cycles).map (fun c => (sortStrings c, "cycle")) :=
  build_cycle_rings_from_proj G 1 (filter_valid_cycles cycles)

/-- Sorted distinct successors of a node in the simple projection
(sorted(simple.successors(current)), main.py line 704). -/
def successors_sorted (G : TxGraph) (u : String) : List String :=
  sortStrings (((G.filter (fun t => decide (t.sender_id = u))).map
    (fun t => t.receiver_id)).dedup)

/-- Model of total_degree (main.py lines 610-618). -/
def total_degree (G : TxGraph) (a : String) : ℕ :=
  (incoming_list G a).length + (outgoing_list G a).length

/-- Intermediate-node predicate of the layered detector
(_valid_intermediate, main.py lines 657-663): total degree in [2, 3]
and not a merchant. -/
def valid_intermediate (G : TxGraph) (a : String) : Bool :=
  decide (2 ≤ total_degree G a ∧ total_degree G a ≤ 3)
    && !(is_merchant_smurfing G a)

/-- The DFS stack machine of detect_layered_networks (main.py lines
672-727), fuel-indexed: pop (current, path) from the stack top, record
the path when it has 3..5 edges, all intermediates valid and an unseen
member set, then push the admissible extensions (reversed sorted order,
since Python appends in sorted order and pops from the end). The Python
loop always terminates; its behaviour is the sufficient-fuel case, and
every property proved below holds for all fuel values. -/
def layeredLoop (G : TxGraph) :
    ℕ → List (String × List String) → List (List String) → List (Finset String) →
      List (List String) × List (Finset String)
  | 0, _, raw, seen => (raw, seen)
  | _ + 1, [], raw, seen => (raw, seen)
  | fuel + 1, (current, path) :: stack, raw, seen =>
      let edge_count := path.length - 1
      let record := decide (3 ≤ edge_count ∧ edge_count ≤ 5)
        && (List.range' 1 (path.length - 2)).all (fun i => valid_intermediate G (path.getD i ""))
        && decide (path.toFinset ∉ seen)
      let raw' := if record then raw ++ [path] else raw
      let seen' := if record then seen ++ [path.toFinset] else seen
      if 5 ≤ edge_count then layeredLoop G fuel stack raw' seen'
      else
        let pushes := ((successors_sorted G current).filter (fun nb =>
          decide (nb ∉ path) &&
            (if edge_count + 1 < 5 ∧ ¬ 3 ≤ edge_count + 1 then valid_intermediate G nb
             else true))).map (fun nb => (nb, path ++ [nb]))
        layeredLoop G fuel (pushes.reverse ++ stack) raw' seen'

/-- Raw layered paths recorded over all start nodes in sorted order
(main.py lines 668-727); raw_rings and seen_member_sets persist across
start nodes. -/
def layered_raw_paths (G : TxGraph) (fuel : ℕ) : List (List String) :=
  ((nodes_sorted G).foldl
    (fun (st : List (List String) × List (Finset String)) start =>
      layeredLoop G fuel [(start, [start])] st.1 st.2) ([], [])).1

/-- Sort order of the raw layered rings: by sorted member tuple
(main.py line 730). -/
def layeredRingLe (a b : List String) : Prop :=
  listLexLeB (sortStrings a) (sortStrings b) = true

instance : DecidableRel layeredRingLe := fun _ _ => instDecidableEqBool _ _

/-- RING_LY ids and member sorting of detect_layered_networks
(main.py lines 733-743). -/
def layered_ring_ids_from (idx : ℕ) : List (List String) → List SuspiciousRing
  | [] => []
  | p :: ps =>
      ⟨"RING_LY_" ++ padZeroes 3 (toString idx), sortStrings p, "layered", none, none, none⟩
        :: layered_ring_ids_from (idx + 1) ps

/-- Model of detect_layered_networks (main.py lines 632-743),
fuel-indexed through the DFS loop. -/
def detect_layered_networks (G : TxGraph) (fuel : ℕ) : List SuspiciousRing :=
  layered_ring_ids_from 1 (List.insertionSort layeredRingLe (layered_raw_paths G fuel))

lemma layeredLoop_inv (G : TxGraph) :
    ∀ (fuel : ℕ) (stack : List (String × List String)) (raw : List (List String))
      (seen : List (Finset String)),
      (∀ p ∈ raw, 4 ≤ p.length ∧ p.length ≤ 6 ∧ p.Nodup) →
      (∀ e ∈ stack, e.2.Nodup) →
      ∀ p ∈ (layeredLoop G fuel stack raw seen).1,
        4 ≤ p.length ∧ p.length ≤ 6 ∧ p.Nodup
  | 0, _, _, _, hraw, _ => hraw
  | _ + 1, [], _, _, hraw, _ => hraw
  | fuel + 1, (current, path) :: stack, raw, seen, hraw, hstack => by
      rw [layeredLoop]
      dsimp only
      have hpathnd : path.Nodup := hstack (current, path) (List.mem_cons_self _ _)
      have hstack' : ∀ e ∈ stack, e.2.Nodup :=
        fun e he => hstack e (List.mem_cons_of_mem _ he)
      have hraw' : ∀ p ∈ (if (decide (3 ≤ path.length - 1 ∧ path.length - 1 ≤ 5)
            && (List.range' 1 (path.length - 2)).all
                (fun i => valid_intermediate G (path.getD i ""))
            && decide (path.toFinset ∉ seen)) then raw ++ [path] else raw),
          4 ≤ p.length ∧ p.length ≤ 6 ∧ p.Nodup := by
        by_cases hrec : (decide (3 ≤ path.length - 1 ∧ path.length - 1 ≤ 5)
            && (List.range' 1 (path.length - 2)).all
                (fun i => valid_intermediate G (path.getD i ""))
            && decide (path.toFinset ∉ seen)) = true
        · rw [if_pos hrec]
          intro p hp
          rcases List.mem_append.mp hp with hp | hp
          · exact hraw p hp
          · rw [List.mem_singleton] at hp
            subst hp
            have hb : decide (3 ≤ p.length - 1 ∧ p.length - 1 ≤ 5) = true := by
              rw [Bool.and_eq_true, Bool.and_eq_true] at hrec
              exact hrec.1.1
            have hb' := of_decide_eq_true hb
            exact ⟨by omega, by omega, hpathnd⟩
        · rw [if_neg hrec]
          exact hraw
      by_cases hec : 5 ≤ path.length - 1
      · rw [if_pos hec]
        exact layeredLoop_inv G fuel stack _ _ hraw' hstack'
      · rw [if_neg hec]
        refine layeredLoop_inv G fuel _ _ _ hraw' ?_
        intro e he
        rcases List.mem_append.mp he with he | he
        · rw [List.mem_reverse] at he
          obtain ⟨nb, hnb, hnbe⟩ := List.mem_map.mp he
          have hnotin : nb ∉ path := by
            have hf := List.of_mem_filter hnb
            rw [Bool.and_eq_true] at hf
            exact of_decide_eq_true hf.1
          rw [← hnbe]
          show (path ++ [nb]).Nodup
          rw [List.nodup_append]
          exact ⟨hpathnd, List.nodup_singleton _,
            fun a ha hb => hnotin ((List.mem_singleton.mp hb) ▸ ha)⟩
        · exact hstack' e he

lemma layered_raw_paths_bounds (G : TxGraph) (fuel : ℕ) :
    ∀ p ∈ layered_raw_paths G fuel, 4 ≤ p.length ∧ p.length ≤ 6 ∧ p.Nodup := by
  unfold layered_raw_paths
  suffices h : ∀ (starts : List String)
      (st : List (List String) × List (Finset String)),
      (∀ p ∈ st.1, 4 ≤ p.length ∧ p.length ≤ 6 ∧ p.Nodup) →
      ∀ p ∈ (starts.foldl (fun st start =>
          layeredLoop G fuel [(start, [start])] st.1 st.2) st).1,
        4 ≤ p.length ∧ p.length ≤ 6 ∧ p.Nodup by
    intro p hp
    exact h (nodes_sorted G) ([], []) (by intro p hp; cases hp) p hp
  intro starts
  induction starts with
  | nil => intro st hst p hp; exact hst p hp
  | cons start rest ih =>
      intro st hst p hp
      rw [List.foldl_cons] at hp
      refine ih _ ?_ p hp
      intro q hq
      exact layeredLoop_inv G fuel [(start, [start])] st.1 st.2 hst
        (by intro e he; rw [List.mem_singleton] at he; subst he; simp) q hq

lemma mem_layered_ring_ids_from :
    ∀ (idx : ℕ) (ps : List (List String)) (r : SuspiciousRing),
      r ∈ layered_ring_ids_from idx ps →
      ∃ p ∈ ps, r.members = sortStrings p ∧ r.pattern = "layered"
  | _, [], _, h => absurd h (List.not_mem_nil _)
  | idx, p :: ps, r, h => by
      rw [layered_ring_ids_from] at h
      rcases List.mem_cons.mp h with h' | h'
      · exact ⟨p, List.mem_cons_self _ _, by rw [h'], by rw [h']⟩
      · obtain ⟨q, hq, hm⟩ := mem_layered_ring_ids_from (idx + 1) ps r h'
        exact ⟨q, List.mem_cons_of_mem _ hq, hm⟩

lemma detect_layered_networks_bounds (G : TxGraph) (fuel : ℕ) (r : SuspiciousRing)
    (hr : r ∈ detect_layered_networks G fuel) :
    4 ≤ r.members.length ∧ r.members.length ≤ 6 ∧ r.members.Nodup ∧
      r.pattern = "layered" := by
  obtain ⟨p, hp, hm, hpat⟩ := mem_layered_ring_ids_from 1 _ r hr
  have hp' : p ∈ layered_raw_paths G fuel :=
    (List.perm_insertionSort layeredRingLe _).mem_iff.mp hp
  obtain ⟨h4, h6, hnd⟩ := layered_raw_paths_bounds G fuel p hp'
  have hlen : r.members.length = p.length := by
    rw [hm]
    exact (List.perm_insertionSort strLe p).length_eq
  have hnd' : r.members.Nodup := by
    rw [hm]
    exact (List.perm_insertionSort strLe p).nodup_iff.mpr hnd
  exact ⟨hlen ▸ h4, hlen ▸ h6, hnd', hpat⟩

lemma mem_aggregate_proj {r : SuspiciousRing} {c s l : List SuspiciousRing}
    (h : r ∈ aggregate_fraud_rings c s l) :
    ∃ r0 ∈ c ++ s ++ l, r.members = r0.members ∧ r.pattern = r0.pattern := by
  obtain ⟨r', hr', hm, hp, _⟩ := mem_assign_ring_ids_from r 1 _ h
  have hr'' : r' ∈ assign_risk_scores (combine_all_rings c s l) :=
    ((List.perm_insertionSort riskDescLe _).mem_iff).1 hr'
  obtain ⟨r0, h0, he⟩ := List.mem_map.1 hr''
  exact ⟨r0, h0, by rw [hm, ← he], by rw [hp, ← he]⟩

lemma mem_build_cycle_rings_from (G : TxGraph) :
    ∀ (idx : ℕ) (cs : List (List String)) (r : SuspiciousRing),
      r ∈ build_cycle_rings_from G idx cs →
      ∃ c ∈ cs, r.members = sortStrings c ∧ r.pattern = "cycle"
  | _, [], _, h => absurd h (List.not_mem_nil _)
  | idx, c :: cs, r, h => by
      rw [build_cycle_rings_from] at h
      rcases List.mem_cons.mp h with h' | h'
      · exact ⟨c, List.mem_cons_self _ _, by rw [h'], by rw [h']⟩
      · obtain ⟨q, hq, hm⟩ := mem_build_cycle_rings_from G (idx + 1) cs r h'
        exact ⟨q, List.mem_cons_of_mem _ hq, hm⟩

lemma mem_smurfing_ring_ids_from :
    ∀ (idx : ℕ) (rs : List RawRing) (r : SuspiciousRing),
      r ∈ smurfing_ring_ids_from idx rs →
      ∃ raw ∈ rs, r.members = raw.members ∧ r.pattern = raw.pattern
  | _, [], _, h => absurd h (List.not_mem_nil _)
  | idx, raw :: rs, r, h => by
      rw [smurfing_ring_ids_from] at h
      rcases List.mem_cons.mp h with h' | h'
      · exact ⟨raw, List.mem_cons_self _ _, by rw [h'], by rw [h']⟩
      · obtain ⟨q, hq, hm⟩ := mem_smurfing_ring_ids_from (idx + 1) rs r h'
        exact ⟨q, List.mem_cons_of_mem _ hq, hm⟩

lemma fanInRingFor_some {G : TxGraph} {k : String} {ms : List String}
    (h : fanInRingFor G k = some ms) :
    10 ≤ (incoming_list G k).length ∧
    10 ≤ (fanSweep (fanInParsed G k)).bestUnique ∧
    ms = sortStrings ((k :: windowSenders (fanInParsed G k)
        (fanSweep (fanInParsed G k)).bestLeft (fanSweep (fanInParsed G k)).bestRight).dedup) := by
  unfold fanInRingFor at h
  dsimp only at h
  split_ifs at h with h1 h2 h3
  · exact ⟨by omega, h3, (Option.some_inj.mp h).symm⟩

lemma fanOutRingFor_some {G : TxGraph} {k : String} {ms : List String}
    (h : fanOutRingFor G k = some ms) :
    10 ≤ (outgoing_list G k).length ∧
    10 ≤ (fanSweep (fanOutParsed G k)).bestUnique ∧
    ms = sortStrings ((k :: windowSenders (fanOutParsed G k)
        (fanSweep (fanOutParsed G k)).bestLeft (fanSweep (fanOutParsed G k)).bestRight).dedup) := by
  unfold fanOutRingFor at h
  dsimp only at h
  split_ifs at h with h1 h2 h3
  · exact ⟨by omega, h3, (Option.some_inj.mp h).symm⟩

lemma length_sortStrings (l : List String) : (sortStrings l).length = l.length :=
  (List.perm_insertionSort strLe l).length_eq

lemma dedup_length_cons_ge {α : Type} [DecidableEq α] (a : α) (l : List α) :
    l.dedup.length ≤ ((a :: l).dedup).length := by
  by_cases h : a ∈ l
  · rw [List.dedup_cons_of_mem h]
  · rw [List.dedup_cons_of_not_mem h]
    exact Nat.le_succ _

lemma fan_sweep_members_card (parsed : List (ℤ × String)) (k : String)
    (hplen : 10 ≤ parsed.length)
    (hbu : 10 ≤ (fanSweep parsed).bestUnique) :
    10 ≤ (sortStrings ((k :: windowSenders parsed
        (fanSweep parsed).bestLeft (fanSweep parsed).bestRight).dedup)).length ∧
    (sortStrings ((k :: windowSenders parsed
        (fanSweep parsed).bestLeft (fanSweep parsed).bestRight).dedup)).Nodup := by
  rcases sweepAux_best parsed parsed.length (le_refl _) with ⟨h0, _⟩ | ⟨_, _, hbl, hbuinv, _, _⟩
  · omega
  · have hbl' : (fanSweep parsed).bestLeft = leftTrace parsed (fanSweep parsed).bestRight := hbl
    constructor
    · rw [length_sortStrings]
      calc 10 ≤ (fanSweep parsed).bestUnique := hbu
        _ = windowCount parsed (fanSweep parsed).bestRight := hbuinv
        _ = ((windowSenders parsed (leftTrace parsed (fanSweep parsed).bestRight)
              (fanSweep parsed).bestRight).dedup).length := rfl
        _ = ((windowSenders parsed (fanSweep parsed).bestLeft
              (fanSweep parsed).bestRight).dedup).length := by rw [hbl']
        _ ≤ ((k :: windowSenders parsed (fanSweep parsed).bestLeft
              (fanSweep parsed).bestRight).dedup).length := dedup_length_cons_ge _ _
    · exact (List.perm_insertionSort strLe _).nodup_iff.mpr (List.nodup_dedup _)

lemma mem_smurfing_detector {G : TxGraph} {r : SuspiciousRing}
    (h : r ∈ smurfing_detector G) :
    (r.pattern = "smurfing_fan_in" ∨ r.pattern = "smurfing_fan_out") ∧
    10 ≤ r.members.length ∧ r.members.Nodup := by
  obtain ⟨raw, hraw, hm, hp⟩ := mem_smurfing_ring_ids_from 1 _ r h
  rcases List.mem_append.mp hraw with hf | hf
  · rw [detect_fan_in_eq G] at hf
    obtain ⟨key, _, hsome⟩ := List.mem_filterMap.mp hf
    obtain ⟨ms, hms, hrw⟩ := Option.map_eq_some'.mp hsome
    obtain ⟨hlen, hbu, hmseq⟩ := fanInRingFor_some hms
    have hplen : 10 ≤ (fanInParsed G key).length := by
      unfold fanInParsed
      rw [List.length_map]
      exact hlen
    obtain ⟨hcard, hnd⟩ := fan_sweep_members_card (fanInParsed G key) key hplen hbu
    refine ⟨Or.inl (by rw [hp, ← hrw]), ?_, ?_⟩
    · rw [hm, ← hrw, ← hmseq] at *
      rw [hmseq] at hcard ⊢
      exact hcard
    · rw [hm, ← hrw]
      show ms.Nodup
      rw [hmseq]
      exact hnd
  · rw [detect_fan_out_eq G] at hf
    obtain ⟨key, _, hsome⟩ := List.mem_filterMap.mp hf
    obtain ⟨ms, hms, hrw⟩ := Option.map_eq_some'.mp hsome
    obtain ⟨hlen, hbu, hmseq⟩ := fanOutRingFor_some hms
    have hplen : 10 ≤ (fanOutParsed G key).length := by
      unfold fanOutParsed
      rw [List.length_map]
      exact hlen
    obtain ⟨hcard, hnd⟩ := fan_sweep_members_card (fanOutParsed G key) key hplen hbu
    refine ⟨Or.inr (by rw [hp, ← hrw]), ?_, ?_⟩
    · rw [hm, ← hrw]
      show 10 ≤ ms.length
      rw [hmseq]
      exact hcard
    · rw [hm, ← hrw]
      show ms.Nodup
      rw [hmseq]
      exact hnd

/-- C2 (amended): every final ring satisfies the pattern-specific size
bounds, with the smurfing bound weakened from 11 to 10: cycle rings
have 3..5 distinct members, layered rings have 4..6 distinct members,
and smurfing rings have at least 10 distinct members (exactly 10 is
possible when the hub itself is one of the window counterparties, e.g.
with a self-loop). The cycles argument is the enumeration returned by
networkx.simple_cycles, whose cycles are elementary, hence the Nodup
hypothesis. -/
theorem final_ring_member_count_bounds (G : TxGraph) (cycles : List (List String)) (fuel : ℕ)
    (hc : ∀ c ∈ cycles, c.Nodup)
    (r : SuspiciousRing)
    (hr : r ∈ aggregate_fraud_rings (cycle_detector G cycles) (smurfing_detector G)
            (detect_layered_networks G fuel)) :
    (r.pattern = "cycle" → 3 ≤ r.members.length ∧ r.members.length ≤ 5 ∧ r.members.Nodup) ∧
    (r.pattern = "layered" → 4 ≤ r.members.length ∧ r.members.length ≤ 6 ∧ r.members.Nodup) ∧
    ((r.pattern = "smurfing_fan_in" ∨ r.pattern = "smurfing_fan_out") →
        10 ≤ r.members.length ∧ r.members.Nodup) := by
  obtain ⟨r0, h0, hm, hp⟩ := mem_aggregate_proj hr
  rcases List.mem_append.mp h0 with h01 | hlay
  · rcases List.mem_append.mp h01 with hcyc | hsm
    · obtain ⟨cyc, hcycmem, hm0, hp0⟩ := mem_build_cycle_rings_from G 1 _ r0 hcyc
      have hcf := List.mem_filter.mp hcycmem
      have hbounds := of_decide_eq_true hcf.2
      have hnd : cyc.Nodup := hc cyc hcf.1
      have hlen : r.members.length = cyc.length := by
        rw [hm, hm0, length_sortStrings]
      have hpat : r.pattern = "cycle" := by rw [hp, hp0]
      refine ⟨fun _ => ⟨by omega, by omega, ?_⟩,
        fun hL => absurd (hpat.symm.trans hL) (by decide),
        fun hS => ?_⟩
      · rw [hm, hm0]
        exact nodup_sortStrings hnd
      · rcases hS with hS | hS <;>
          exact absurd (hpat.symm.trans hS) (by decide)
    · obtain ⟨hpat2, hcard, hnd⟩ := mem_smurfing_detector hsm
      have hpat : r.pattern = "smurfing_fan_in" ∨ r.pattern = "smurfing_fan_out" := by
        rw [hp]
        exact hpat2
      refine ⟨fun hC => ?_, fun hL => ?_, fun _ => ⟨by rw [hm]; exact hcard, by rw [hm]; exact hnd⟩⟩
      · rcases hpat with h | h <;> exact absurd (h.symm.trans hC) (by decide)
      · rcases hpat with h | h <;> exact absurd (h.symm.trans hL) (by decide)
  · obtain ⟨h4, h6, hnd, hpat0⟩ := detect_layered_networks_bounds G fuel r0 hlay
    have hpat : r.pattern = "layered" := by rw [hp, hpat0]
    refine ⟨fun hC => absurd (hpat.symm.trans hC) (by decide),
      fun _ => ⟨by rw [hm]; exact h4, by rw [hm]; exact h6, by rw [hm]; exact hnd⟩,
      fun hS => ?_⟩
    rcases hS with hS | hS <;> exact absurd (hpat.symm.trans hS) (by decide)

/-- Graph refuting the 11-member smurfing bound: R has a self-loop and
receives from nine other senders inside the window, so the best fan-in
window has 10 distinct senders one of which is R itself. -/
def counterG2 : TxGraph :=
  ⟨"l0", "R", "R", 1, 0⟩ :: (List.range 9).map (fun i =>
    ⟨"c" ++ toString i, "S" ++ toString i, "R", 1, (i : ℤ) + 1⟩)

/-- C2 counterexample: on counterG2 (whose only elementary cycle is the
length-1 self-loop, discarded by the 3..5 filter) the pipeline emits a
single final smurfing_fan_in ring with exactly 10 members, violating
the claimed bound of at least 11 for smurfing rings. -/
theorem smurfing_ring_with_ten_members_counterexample :
    isElementaryCycle counterG2 ["R"] ∧
    (aggregate_fraud_rings (cycle_detector counterG2 [["R"]]) (smurfing_detector counterG2)
        (detect_layered_networks counterG2 64)).map
      (fun r => (r.ring_id, r.pattern, r.members.length, decide (r.members.length ≤ 10)))
      = [("RING_001", "smurfing_fan_in", 10, true)] := by
  with_unfolding_all decide

/-- Witness for final_ring_member_count_bounds on a pure three-node
cycle input. -/
def witnessG2 : TxGraph :=
  [⟨"t1", "A", "B", 1, 0⟩, ⟨"t2", "B", "C", 1, 60⟩, ⟨"t3", "C", "A", 1, 120⟩]

/-- Concrete instantiation of final_ring_member_count_bounds at the
final cycle ring of witnessG2. -/
theorem final_ring_member_count_bounds_witness :
    (let r : SuspiciousRing :=
      ⟨"RING_001", ["A", "B", "C"], "cycle", some (93 / 100), some 3, some 3⟩
     (r.pattern = "cycle" → 3 ≤ r.members.length ∧ r.members.length ≤ 5 ∧ r.members.Nodup) ∧
     (r.pattern = "layered" → 4 ≤ r.members.length ∧ r.members.length ≤ 6 ∧ r.members.Nodup) ∧
     ((r.pattern = "smurfing_fan_in" ∨ r.pattern = "smurfing_fan_out") →
         10 ≤ r.members.length ∧ r.members.Nodup)) :=
  final_ring_member_count_bounds witnessG2 [["A", "B", "C"]] 64
    (by with_unfolding_all decide)
    ⟨"RING_001", ["A", "B", "C"], "cycle", some (93 / 100), some 3, some 3⟩
    (by with_unfolding_all decide)

/-- Round a rational to two decimal places (Python round(x, 2), used in
compute_final_scores; no exact tie arises in any value the claims
touch, so round-half-up agrees). -/
def round2 (q : ℚ) : ℚ := (ratFloor (q * 100 + 1 / 2) : ℚ) / 100

/-- Round a rational to six decimal places (Python round(x, 6)). -/
def round6 (q : ℚ) : ℚ := (ratFloor (q * 1000000 + 1 / 2) : ℚ) / 1000000

/-- Round a rational to the nearest integer (Python int(round(x))). -/
def roundInt (q : ℚ) : ℤ := ratFloor (q + 1 / 2)

/-- Model of _risk_level (json_formatter.py lines 25-37). -/
def risk_level (score : ℤ) : String :=
  if score ≥ 80 then "HIGH" else if score ≥ 50 then "MEDIUM" else "LOW"

/-- A ring dict handed to the formatter (ring_id, pattern, members,
integer risk 0-100), as produced by _run_pipeline (main.py lines
1734-1742). -/
structure RingDict where
  ring_id : String
  pattern : String
  members : List String
  risk_score : ℤ
deriving DecidableEq

/-- A formatted ring of the final report (json_formatter.py lines
55-62). -/
structure FormattedRing where
  ring_id : String
  pattern : String
  members : List String
  risk_score : ℚ
deriving DecidableEq

/-- Descending risk order of format_fraud_rings (stable). -/
def fmtRingLe (a b : FormattedRing) : Prop := b.risk_score ≤ a.risk_score

instance : DecidableRel fmtRingLe := fun a b =>
  Rat.instDecidableLe b.risk_score a.risk_score

/-- Model of format_fraud_rings (json_formatter.py lines 44-66). -/
def format_fraud_rings (fraud_rings : List RingDict) : List FormattedRing :=
  List.insertionSort fmtRingLe (fraud_rings.map (fun r =>
    ⟨r.ring_id, r.pattern, r.members, round4 (r.risk_score : ℚ)⟩))

/-- A formatted account of the final report (json_formatter.py lines
90-103); rule_score and ml_probability are present only when ML detail
is available. -/
structure FormattedAccount where
  account_id : String
  suspicion_score : ℤ
  risk_level : String
  associated_ring : Option String
  rule_score : Option ℤ
  ml_probability : Option ℚ
deriving DecidableEq

/-- Sort order of format_suspicious_accounts: score descending, then
account id ascending. -/
def fmtAccLe (x y : FormattedAccount) : Prop :=
  y.suspicion_score < x.suspicion_score ∨
    (x.suspicion_score = y.suspicion_score ∧ strLe x.account_id y.account_id)

instance : DecidableRel fmtAccLe := fun _ _ =>
  inferInstanceAs (Decidable (_ ∨ _))

/-- Model of format_suspicious_accounts (json_formatter.py lines
69-107). -/
def format_suspicious_accounts (account_scores : List (String × ℤ))
    (account_ring_map : List (String × Option String))
    (ml_probabilities : List (String × ℚ))
    (rule_scores : List (String × ℤ)) : List FormattedAccount :=
  List.insertionSort fmtAccLe (account_scores.map (fun p =>
    let clamped := max 0 (min 100 p.2)
    { account_id := p.1,
      suspicion_score := clamped,
      risk_level := risk_level clamped,
      associated_ring := alGetD account_ring_map p.1 none,
      rule_score := if ml_probabilities ≠ [] then some (alGetD rule_scores p.1 0) else none,
      ml_probability :=
        if ml_probabilities ≠ [] then some (round6 (alGetD ml_probabilities p.1 0)) else none }))

/-- Summary block of the report (json_formatter.py lines 147-158). -/
structure Summary where
  total_accounts : ℕ
  total_transactions : ℕ
  fraud_rings_detected : ℕ
  suspicious_accounts_count : ℕ
  ml_model_active : Bool
  processing_time_seconds : ℚ
deriving DecidableEq

/-- The assembled report (json_formatter.py lines 147-158). -/
structure Report where
  summary : Summary
  fraud_rings : List FormattedRing
  suspicious_accounts : List FormattedAccount
deriving DecidableEq

/-- Model of build_final_json (json_formatter.py lines 110-163):
format rings and accounts, then assemble the summary;
ml_model_active = bool(ml_probabilities), i.e. the passed probability
dict is non-empty. -/
def build_final_json (transactions : List Transaction) (fraud_rings : List RingDict)
    (account_scores : List (String × ℤ)) (account_ring_map : List (String × Option String))
    (processing_time_seconds : ℚ) (ml_probabilities : List (String × ℚ))
    (rule_scores : List (String × ℤ)) : Report :=
  let formatted_rings := format_fraud_rings fraud_rings
  let formatted_accounts := format_suspicious_accounts account_scores account_ring_map
    ml_probabilities rule_scores
  { summary :=
    { total_accounts := ((transactions.map (fun t => t.sender_id))
        ++ (transactions.map (fun t => t.receiver_id))).dedup.length,
      total_transactions := transactions.length,
      fraud_rings_detected := formatted_rings.length,
      suspicious_accounts_count := formatted_accounts.length,
      ml_model_active := decide (ml_probabilities ≠ []),
      processing_time_seconds := round4 processing_time_seconds },
    fraud_rings := formatted_rings,
    suspicious_accounts := formatted_accounts }

/-- Model of compute_final_scores (ml/predictor.py lines 145-181),
keeping the final_score field the pipeline consumes: blend
0.6 x rule + 0.4 x (probability x 100), clamp to [0, 100], round to two
decimals. The keys are the union of both dicts (Python iterates the
set union; only the key set and the values matter downstream). -/
def compute_final_scores (rule_scores : List (String × ℤ))
    (ml_probabilities : List (String × ℚ)) : List (String × ℚ) :=
  ((alKeys rule_scores ++ alKeys ml_probabilities).dedup).map (fun a =>
    let rule := alGetD rule_scores a 0
    let prob := alGetD ml_probabilities a 0
    (a, round2 (max 0 (min 100 ((6 / 10) * (rule : ℚ) + (4 / 10) * (prob * 100))))))

/-- The final rings the pipeline aggregates (step 2 of _run_pipeline,
main.py lines 1722-1726). -/
def pipelineRings (transactions : List Transaction) (cycles : List (List String))
    (fuel : ℕ) : List SuspiciousRing :=
  aggregate_fraud_rings (cycle_detector transactions cycles)
    (smurfing_detector transactions) (detect_layered_networks transactions fuel)

/-- Accounts belonging to at least one final ring (ring_member_ids,
main.py lines 1754-1756), as a duplicate-free list. -/
def ringMemberIds (rings : List SuspiciousRing) : List String :=
  (rings.foldl (fun acc r => acc ++ r.members) []).dedup

/-- Model of _run_pipeline (main.py lines 1710-1796). The ML predictor
is the out-of-scope opaque collaborator: mlAvailable stands for
ml_is_available() and mlProbs for the probability dict
predict_fraud_probabilities returns on the extracted features;
processing time is a parameter (wall-clock time is not modelled). -/
def run_pipeline (transactions : List Transaction) (cycles : List (List String)) (fuel : ℕ)
    (mlAvailable : Bool) (mlProbs : List (String × ℚ)) (processing_time : ℚ) : Report :=
  let fraud_rings := pipelineRings transactions cycles fuel
  let suspicious_accounts := (compute_suspicion_scores transactions fraud_rings).1
  let rings_as_dicts : List RingDict := fraud_rings.map (fun r =>
    ⟨r.ring_id, r.pattern, r.members, roundInt (r.risk_score.getD 0 * 100)⟩)
  let rule_scores : List (String × ℤ) :=
    suspicious_accounts.map (fun sa => (sa.account_id, sa.suspicion_score))
  let member_ids := ringMemberIds fraud_rings
  let account_scores : List (String × ℤ) :=
    if mlAvailable then
      ((compute_final_scores rule_scores mlProbs).filter
        (fun p => decide (p.1 ∈ member_ids))).map (fun p => (p.1, roundInt p.2))
    else rule_scores
  let ml_probabilities : List (String × ℚ) :=
    if mlAvailable then mlProbs.filter (fun p => decide (p.1 ∈ member_ids)) else []
  let account_ring_map : List (String × Option String) :=
    (build_account_ring_map fraud_rings).map (fun p => (p.1, p.2.head?))
  build_final_json transactions rings_as_dicts account_scores account_ring_map
    processing_time ml_probabilities rule_scores

/-- C9: in the assembled report, summary.ml_model_active is true iff
the probability map passed to the assembler -- the predictor output
restricted to ring-member accounts when the model is available, the
empty map otherwise -- is non-empty; in particular, when the predictor
is available but the run detects no fraud rings, ml_model_active is
false. -/
theorem ml_model_active_iff (transactions : List Transaction) (cycles : List (List String))
    (fuel : ℕ) (mlAvailable : Bool) (mlProbs : List (String × ℚ)) (pt : ℚ) :
    ((run_pipeline transactions cycles fuel mlAvailable mlProbs pt).summary.ml_model_active = true
      ↔ (if mlAvailable then
          mlProbs.filter (fun p =>
            decide (p.1 ∈ ringMemberIds (pipelineRings transactions cycles fuel)))
         else []) ≠ []) ∧
    (mlAvailable = true → pipelineRings transactions cycles fuel = [] →
      (run_pipeline transactions cycles fuel mlAvailable mlProbs pt).summary.ml_model_active
        = false) := by
  constructor
  · show decide _ = true ↔ _
    exact decide_eq_true_iff
  · intro hav hempty
    show decide ((if mlAvailable then
        mlProbs.filter (fun p =>
          decide (p.1 ∈ ringMemberIds (pipelineRings transactions cycles fuel)))
       else []) ≠ []) = false
    rw [hav, if_pos rfl, hempty]
    have hmem : ringMemberIds ([] : List SuspiciousRing) = [] := rfl
    rw [hmem]
    simp

/-- Concrete instantiation of ml_model_active_iff: predictor available
and returning a probability for A, yet the single-transfer input yields
no rings, so the report flags the model as inactive. -/
theorem ml_model_active_iff_witness :
    (run_pipeline [⟨"t1", "A", "B", 1, 0⟩] [] 16 true [("A", 1 / 2)] 0).summary.ml_model_active
      = false :=
  (ml_model_active_iff [⟨"t1", "A", "B", 1, 0⟩] [] 16 true [("A", 1 / 2)] 0).2 rfl
    (by with_unfolding_all decide)
instance : IsTotal Transaction tsLe :=
  ⟨fun a b => Int.le_total a.timestamp b.timestamp⟩

instance : IsTrans Transaction tsLe :=
  ⟨fun _ _ _ h1 h2 => le_trans h1 h2⟩

instance : IsTotal String strLe := inferInstance

instance : IsTotal ℤ intLe := ⟨fun a b => Int.le_total a b⟩

instance : IsTrans ℤ intLe := ⟨fun _ _ _ h1 h2 => le_trans h1 h2⟩

instance : IsAntisymm ℤ intLe := ⟨fun _ _ h1 h2 => le_antisymm h1 h2⟩

lemma sortStrings_eq_of_perm {l1 l2 : List String} (hp : l1.Perm l2) :
    sortStrings l1 = sortStrings l2 :=
  List.eq_of_perm_of_sorted
    ((List.perm_insertionSort strLe _).trans (hp.trans (List.perm_insertionSort strLe _).symm))
    (List.sorted_insertionSort strLe _) (List.sorted_insertionSort strLe _)

lemma sortStrings_dedup_eq_of_perm {l1 l2 : List String} (hp : l1.Perm l2) :
    sortStrings l1.dedup = sortStrings l2.dedup :=
  sortStrings_eq_of_perm hp.dedup

lemma toFinset_dedup_eq (l : List String) : l.dedup.toFinset = l.toFinset := by
  ext a
  simp [List.mem_dedup]

lemma insertionSort_int_eq_of_perm {l1 l2 : List ℤ} (hp : l1.Perm l2) :
    List.insertionSort intLe l1 = List.insertionSort intLe l2 := by
  have hperm2 : (List.insertionSort intLe l1).Perm (List.insertionSort intLe l2) :=
    (List.perm_insertionSort intLe l1).trans
      (hp.trans (List.perm_insertionSort intLe l2).symm)
  exact List.eq_of_perm_of_sorted hperm2
    (List.sorted_insertionSort intLe _) (List.sorted_insertionSort intLe _)

lemma incoming_list_perm {t1 t2 : List Transaction} (hp : t1.Perm t2) (a : String) :
    (incoming_list t1 a).Perm (incoming_list t2 a) :=
  (List.perm_insertionSort tsLe _).trans
    ((hp.filter _).trans (List.perm_insertionSort tsLe _).symm)

lemma outgoing_list_perm {t1 t2 : List Transaction} (hp : t1.Perm t2) (a : String) :
    (outgoing_list t1 a).Perm (outgoing_list t2 a) :=
  (List.perm_insertionSort tsLe _).trans
    ((hp.filter _).trans (List.perm_insertionSort tsLe _).symm)

lemma incoming_list_ts_sorted (G : TxGraph) (a : String) :
    ((incoming_list G a).map (fun t => t.timestamp)).Sorted intLe :=
  List.Pairwise.map _ (fun _ _ hab => hab)
    (List.sorted_insertionSort tsLe (G.filter (fun t => decide (t.receiver_id = a))))

lemma outgoing_list_ts_sorted (G : TxGraph) (a : String) :
    ((outgoing_list G a).map (fun t => t.timestamp)).Sorted intLe :=
  List.Pairwise.map _ (fun _ _ hab => hab)
    (List.sorted_insertionSort tsLe (G.filter (fun t => decide (t.sender_id = a))))

lemma incoming_list_map_ts {t1 t2 : List Transaction} (hp : t1.Perm t2) (a : String) :
    (incoming_list t1 a).map (fun t => t.timestamp)
      = (incoming_list t2 a).map (fun t => t.timestamp) :=
  List.eq_of_perm_of_sorted ((incoming_list_perm hp a).map _)
    (incoming_list_ts_sorted t1 a) (incoming_list_ts_sorted t2 a)

lemma outgoing_list_map_ts {t1 t2 : List Transaction} (hp : t1.Perm t2) (a : String) :
    (outgoing_list t1 a).map (fun t => t.timestamp)
      = (outgoing_list t2 a).map (fun t => t.timestamp) :=
  List.eq_of_perm_of_sorted ((outgoing_list_perm hp a).map _)
    (outgoing_list_ts_sorted t1 a) (outgoing_list_ts_sorted t2 a)

lemma incoming_keys_eq_of_perm {t1 t2 : List Transaction} (hp : t1.Perm t2) :
    incoming_keys t1 = incoming_keys t2 :=
  sortStrings_dedup_eq_of_perm (hp.map _)

lemma outgoing_keys_eq_of_perm {t1 t2 : List Transaction} (hp : t1.Perm t2) :
    outgoing_keys t1 = outgoing_keys t2 :=
  sortStrings_dedup_eq_of_perm (hp.map _)

lemma nodes_sorted_eq_of_perm {t1 t2 : List Transaction} (hp : t1.Perm t2) :
    nodes_sorted t1 = nodes_sorted t2 :=
  sortStrings_dedup_eq_of_perm ((hp.map _).append (hp.map _))

lemma successors_sorted_eq_of_perm {t1 t2 : List Transaction} (hp : t1.Perm t2) :
    successors_sorted t1 = successors_sorted t2 := by
  funext u
  exact sortStrings_dedup_eq_of_perm ((hp.filter _).map _)

lemma total_tx_count_eq_of_perm {t1 t2 : List Transaction} (hp : t1.Perm t2) :
    total_tx_count t1 = total_tx_count t2 := by
  funext a
  unfold total_tx_count
  rw [(hp.filter _).length_eq, (hp.filter _).length_eq]

lemma incident_ts_sorted_eq_of_perm {t1 t2 : List Transaction} (hp : t1.Perm t2) :
    incident_ts_sorted t1 = incident_ts_sorted t2 := by
  funext a
  unfold incident_ts_sorted
  exact insertionSort_int_eq_of_perm (((hp.filter _).map _).append ((hp.filter _).map _))

lemma edgeStats_eq_of_perm {t1 t2 : List Transaction} (hp : t1.Perm t2) :
    edgeStats t1 = edgeStats t2 := by
  funext u v
  unfold edgeStats
  dsimp only
  rw [((hp.filter _).map _).sum_eq, (hp.filter _).length_eq]

lemma is_merchant_smurfing_eq_of_perm {t1 t2 : List Transaction} (hp : t1.Perm t2) :
    is_merchant_smurfing t1 = is_merchant_smurfing t2 := by
  funext a
  unfold is_merchant_smurfing
  rw [(incoming_list_perm hp a).length_eq, (outgoing_list_perm hp a).length_eq]

lemma getD_fst_congr {P Q : List (ℤ × String)}
    (hfst : P.map Prod.fst = Q.map Prod.fst) (i : ℕ) :
    (P.getD i (0, "")).1 = (Q.getD i (0, "")).1 := by
  have h1 : ∀ (l : List (ℤ × String)), (l.getD i (0, "")).1 = (l.map Prod.fst).getD i 0 := by
    intro l
    rw [List.getD_eq_getElem?_getD, List.getD_eq_getElem?_getD, List.getElem?_map]
    cases l[i]? <;> rfl
  rw [h1, h1, hfst]

lemma sweepShrink_left_congr {P Q : List (ℤ × String)}
    (hfst : P.map Prod.fst = Q.map Prod.fst) (tR : ℤ) :
    ∀ (fuel left : ℕ) (f1 f2 : Multiset String),
      (sweepShrink P tR fuel left f1).1 = (sweepShrink Q tR fuel left f2).1
  | 0, _, _, _ => rfl
  | fuel + 1, left, f1, f2 => by
      have hlen : P.length = Q.length := by simpa using congrArg List.length hfst
      rw [sweepShrink_succ, sweepShrink_succ]
      by_cases hc : left < P.length ∧ tR - (P.getD left (0, "")).1 > smurfingWindow
      · rw [if_pos hc, if_pos (by rw [← hlen, ← getD_fst_congr hfst left]; exact hc)]
        exact sweepShrink_left_congr hfst tR fuel (left + 1) _ _
      · rw [if_neg hc, if_neg (by
          intro h
          apply hc
          rw [hlen, getD_fst_congr hfst left]
          exact h)]

lemma sweepAux_left_congr {P Q : List (ℤ × String)}
    (hfst : P.map Prod.fst = Q.map Prod.fst) :
    ∀ k, (sweepAux P k).left = (sweepAux Q k).left
  | 0 => rfl
  | k + 1 => by
      have hlen : P.length = Q.length := by simpa using congrArg List.length hfst
      rw [sweepAux_succ, sweepAux_succ, sweepStep_left, sweepStep_left,
        sweepAux_left_congr hfst k, getD_fst_congr hfst k, hlen]
      exact sweepShrink_left_congr hfst _ _ _ _ _

lemma leftTrace_congr {P Q : List (ℤ × String)}
    (hfst : P.map Prod.fst = Q.map Prod.fst) (j : ℕ) :
    leftTrace P j = leftTrace Q j := by
  unfold leftTrace
  rw [sweepAux_left_congr hfst (j + 1)]

lemma sweepShrink_passed (P : List (ℤ × String)) (tR : ℤ) :
    ∀ (fuel left : ℕ) (freq : Multiset String) (i : ℕ),
      left ≤ i → i < (sweepShrink P tR fuel left freq).1 →
      tR - (P.getD i (0, "")).1 > smurfingWindow
  | 0, left, freq, i, hli, hir => by
      have hir2 : i < left := hir
      omega
  | fuel + 1, left, freq, i, hli, hir => by
      rw [sweepShrink_succ] at hir
      by_cases hc : left < P.length ∧ tR - (P.getD left (0, "")).1 > smurfingWindow
      · rw [if_pos hc] at hir
        rcases Nat.lt_or_ge i (left + 1) with h | h
        · have hil : i = left := by omega
          subst hil
          exact hc.2
        · exact sweepShrink_passed P tR fuel (left + 1) _ i h hir
      · rw [if_neg hc] at hir
        have hir2 : i < left := hir
        omega

lemma sweepShrink_stop (P : List (ℤ × String)) (tR : ℤ) :
    ∀ (fuel left : ℕ) (freq : Multiset String),
      P.length ≤ left + fuel →
      (sweepShrink P tR fuel left freq).1 < P.length →
      tR - (P.getD (sweepShrink P tR fuel left freq).1 (0, "")).1 ≤ smurfingWindow
  | 0, left, freq, hfuel, hlt => by
      have h1 : left < P.length := hlt
      omega
  | fuel + 1, left, freq, hfuel, hlt => by
      rw [sweepShrink_succ] at hlt ⊢
      by_cases hc : left < P.length ∧ tR - (P.getD left (0, "")).1 > smurfingWindow
      · rw [if_pos hc] at hlt ⊢
        exact sweepShrink_stop P tR fuel (left + 1) _ (by omega) hlt
      · rw [if_neg hc] at hlt ⊢
        have h1 : (left, freq).1 < P.length := hlt
        have h2 : left < P.length := h1
        have h3 : ¬ tR - (P.getD left (0, "")).1 > smurfingWindow := fun h => hc ⟨h2, h⟩
        exact le_of_not_lt h3

lemma sweepShrink_noop (P : List (ℤ × String)) (tR : ℤ) (left : ℕ)
    (h : ¬ (left < P.length ∧ tR - (P.getD left (0, "")).1 > smurfingWindow)) :
    ∀ (fuel : ℕ) (freq : Multiset String), sweepShrink P tR fuel left freq = (left, freq)
  | 0, _ => rfl
  | fuel + 1, freq => by rw [sweepShrink_succ, if_neg h]

lemma parsed_mono {P : List (ℤ × String)}
    (hs : P.Pairwise (fun a b => a.1 ≤ b.1)) :
    ∀ i j : ℕ, i ≤ j → j < P.length → (P.getD i (0, "")).1 ≤ (P.getD j (0, "")).1 := by
  intro i j hij hj
  rcases Nat.lt_or_ge i j with h | h
  · rw [List.getD_eq_getElem P _ (by omega), List.getD_eq_getElem P _ hj]
    exact List.pairwise_iff_getElem.mp hs i j (by omega) hj h
  · have hji : i = j := by omega
    subst hji
    exact le_refl _

lemma leftTrace_out (P : List (ℤ × String))
    (hmono : ∀ i j : ℕ, i ≤ j → j < P.length → (P.getD i (0, "")).1 ≤ (P.getD j (0, "")).1) :
    ∀ r, r < P.length → ∀ i, i < leftTrace P r →
      (P.getD r (0, "")).1 - (P.getD i (0, "")).1 > smurfingWindow
  | 0, hr, i, hi => by
      rw [(windowCount_eq_card P 0 hr).1] at hi
      exact sweepShrink_passed P _ P.length _ _ i
        (by have h0 : (sweepAux P 0).left = 0 := rfl; omega) hi
  | r + 1, hr, i, hi => by
      rw [(windowCount_eq_card P (r + 1) hr).1] at hi
      rcases Nat.lt_or_ge i (sweepAux P (r + 1)).left with h | h
      · have hr2 : r < P.length := by omega
        have hIH := leftTrace_out P hmono r hr2 i (by
          have hdef : leftTrace P r = (sweepAux P (r + 1)).left := rfl
          omega)
        have hts : (P.getD r (0, "")).1 ≤ (P.getD (r + 1) (0, "")).1 :=
          hmono r (r + 1) (Nat.le_succ r) hr
        omega
      · exact sweepShrink_passed P _ P.length _ _ i h hi

lemma leftTrace_in (P : List (ℤ × String)) (r : ℕ) (hr : r < P.length) :
    (P.getD r (0, "")).1 - (P.getD (leftTrace P r) (0, "")).1 ≤ smurfingWindow := by
  have hle : leftTrace P r ≤ r := leftTrace_le P r hr
  have hlt := (windowCount_eq_card P r hr).1
  rw [hlt]
  refine sweepShrink_stop P _ P.length _ _ (by omega) ?_
  rw [← hlt]
  omega

lemma mem_take_imp (P : List (ℤ × String)) (k : ℕ) (x : ℤ × String) (hx : x ∈ P.take k) :
    ∃ i, i < k ∧ i < P.length ∧ x = P.getD i (0, "") := by
  rcases List.mem_iff_getElem.mp hx with ⟨i, hilen, hxi⟩
  have h1 : i < k ∧ i < P.length := by
    rw [List.length_take] at hilen
    omega
  refine ⟨i, h1.1, h1.2, ?_⟩
  rw [← hxi, List.getElem_take, List.getD_eq_getElem P _ h1.2]

lemma mem_slice_imp (P : List (ℤ × String)) (l k : ℕ) (x : ℤ × String)
    (hx : x ∈ (P.take k).drop l) :
    ∃ i, l ≤ i ∧ i < k ∧ i < P.length ∧ x = P.getD i (0, "") := by
  rcases List.mem_iff_getElem.mp hx with ⟨i, hilen, hxi⟩
  rw [List.length_drop, List.length_take] at hilen
  have h1 : l + i < k ∧ l + i < P.length := by omega
  refine ⟨l + i, Nat.le_add_right l i, h1.1, h1.2, ?_⟩
  rw [← hxi, List.getElem_drop, List.getElem_take, List.getD_eq_getElem P _ h1.2]

lemma mem_drop_imp (P : List (ℤ × String)) (k : ℕ) (x : ℤ × String) (hx : x ∈ P.drop k) :
    ∃ i, k ≤ i ∧ i < P.length ∧ x = P.getD i (0, "") := by
  rcases List.mem_iff_getElem.mp hx with ⟨i, hilen, hxi⟩
  rw [List.length_drop] at hilen
  refine ⟨k + i, Nat.le_add_right k i, by omega, ?_⟩
  rw [← hxi, List.getElem_drop, List.getD_eq_getElem P _ (by omega)]

lemma window_slice_eq_filter (P : List (ℤ × String))
    (hmono : ∀ i j : ℕ, i ≤ j → j < P.length → (P.getD i (0, "")).1 ≤ (P.getD j (0, "")).1)
    (r : ℕ) (hr : r < P.length)
    (hge : r + 1 = P.length ∨ (P.getD r (0, "")).1 < (P.getD (r + 1) (0, "")).1) :
    (P.take (r + 1)).drop (leftTrace P r) =
      P.filter (fun p => decide ((P.getD r (0, "")).1 - smurfingWindow ≤ p.1 ∧
        p.1 ≤ (P.getD r (0, "")).1)) := by
  have hle : leftTrace P r ≤ r := leftTrace_le P r hr
  have htail : P.filter (fun p => decide ((P.getD r (0, "")).1 - smurfingWindow ≤ p.1 ∧
      p.1 ≤ (P.getD r (0, "")).1)) =
      (P.take (r + 1)).filter (fun p => decide ((P.getD r (0, "")).1 - smurfingWindow ≤ p.1 ∧
        p.1 ≤ (P.getD r (0, "")).1))
      ++ (P.drop (r + 1)).filter (fun p => decide ((P.getD r (0, "")).1 - smurfingWindow ≤ p.1 ∧
        p.1 ≤ (P.getD r (0, "")).1)) := by
    rw [← List.filter_append, List.take_append_drop]
  have hnil : (P.drop (r + 1)).filter (fun p => decide ((P.getD r (0, "")).1 - smurfingWindow ≤ p.1 ∧
      p.1 ≤ (P.getD r (0, "")).1)) = [] := by
    rcases hge with h | h
    · rw [List.drop_eq_nil_of_le (le_of_eq h.symm)]
      rfl
    · refine List.filter_eq_nil_iff.mpr ?_
      intro x hx
      rcases mem_drop_imp P (r + 1) x hx with ⟨i, hki, hilen, hxval⟩
      simp only [decide_eq_true_eq]
      rintro ⟨_, hub⟩
      have h1 : (P.getD (r + 1) (0, "")).1 ≤ (P.getD i (0, "")).1 := hmono (r + 1) i hki hilen
      rw [hxval] at hub
      omega
  have hsum : (P.take (r + 1)).filter (fun p => decide ((P.getD r (0, "")).1 - smurfingWindow ≤ p.1 ∧
      p.1 ≤ (P.getD r (0, "")).1)) =
      ((P.take (r + 1)).take (leftTrace P r)).filter
        (fun p => decide ((P.getD r (0, "")).1 - smurfingWindow ≤ p.1 ∧
          p.1 ≤ (P.getD r (0, "")).1))
      ++ ((P.take (r + 1)).drop (leftTrace P r)).filter
        (fun p => decide ((P.getD r (0, "")).1 - smurfingWindow ≤ p.1 ∧
          p.1 ≤ (P.getD r (0, "")).1)) := by
    rw [← List.filter_append, List.take_append_drop]
  have hcollapse : (P.take (r + 1)).take (leftTrace P r) = P.take (leftTrace P r) := by
    rw [List.take_take, min_eq_left (by omega)]
  have hprefix : (P.take (leftTrace P r)).filter
      (fun p => decide ((P.getD r (0, "")).1 - smurfingWindow ≤ p.1 ∧
        p.1 ≤ (P.getD r (0, "")).1)) = [] := by
    refine List.filter_eq_nil_iff.mpr ?_
    intro x hx
    rcases mem_take_imp P (leftTrace P r) x hx with ⟨i, hik, hilen, hxval⟩
    simp only [decide_eq_true_eq]
    rintro ⟨hlb, _⟩
    have h1 := leftTrace_out P hmono r hr i hik
    rw [hxval] at hlb
    omega
  have hslice : ((P.take (r + 1)).drop (leftTrace P r)).filter
      (fun p => decide ((P.getD r (0, "")).1 - smurfingWindow ≤ p.1 ∧
        p.1 ≤ (P.getD r (0, "")).1)) = (P.take (r + 1)).drop (leftTrace P r) := by
    refine List.filter_eq_self.mpr ?_
    intro x hx
    rcases mem_slice_imp P (leftTrace P r) (r + 1) x hx with ⟨i, hli, hik, hilen, hxval⟩
    simp only [decide_eq_true_eq]
    have h1 : (P.getD (leftTrace P r) (0, "")).1 ≤ (P.getD i (0, "")).1 := hmono _ i hli hilen
    have h2 : (P.getD i (0, "")).1 ≤ (P.getD r (0, "")).1 := hmono i r (by omega) hr
    have h3 := leftTrace_in P r hr
    rw [hxval]
    exact ⟨by omega, by omega⟩
  rw [htail, hnil, List.append_nil, hsum, hcollapse, hprefix, List.nil_append, hslice]

lemma windowSenders_perm_at_group_end {P Q : List (ℤ × String)}
    (hfst : P.map Prod.fst = Q.map Prod.fst) (hperm : P.Perm Q)
    (hmonoP : ∀ i j : ℕ, i ≤ j → j < P.length → (P.getD i (0, "")).1 ≤ (P.getD j (0, "")).1)
    (hmonoQ : ∀ i j : ℕ, i ≤ j → j < Q.length → (Q.getD i (0, "")).1 ≤ (Q.getD j (0, "")).1)
    (r : ℕ) (hr : r < P.length)
    (hge : r + 1 = P.length ∨ (P.getD r (0, "")).1 < (P.getD (r + 1) (0, "")).1) :
    (windowSenders P (leftTrace P r) r).Perm (windowSenders Q (leftTrace Q r) r) := by
  have hlen : P.length = Q.length := by simpa using congrArg List.length hfst
  have hgeQ : r + 1 = Q.length ∨ (Q.getD r (0, "")).1 < (Q.getD (r + 1) (0, "")).1 := by
    rcases hge with h | h
    · exact Or.inl (by omega)
    · right
      rw [← getD_fst_congr hfst r, ← getD_fst_congr hfst (r + 1)]
      exact h
  have hP := window_slice_eq_filter P hmonoP r hr hge
  have hQ := window_slice_eq_filter Q hmonoQ r (by omega) hgeQ
  show (((P.take (r + 1)).drop (leftTrace P r)).map (fun p => p.2)).Perm
    (((Q.take (r + 1)).drop (leftTrace Q r)).map (fun p => p.2))
  rw [hP, hQ, ← getD_fst_congr hfst r]
  exact (hperm.filter _).map _

lemma window_step_in_group (P : List (ℤ × String))
    (r : ℕ) (hr1 : r + 1 < P.length)
    (heq : (P.getD (r + 1) (0, "")).1 = (P.getD r (0, "")).1) :
    leftTrace P (r + 1) = leftTrace P r ∧
    windowSenders P (leftTrace P (r + 1)) (r + 1) =
      windowSenders P (leftTrace P r) r ++ [(P.getD (r + 1) (0, "")).2] := by
  have hr : r < P.length := by omega
  have hle : leftTrace P r ≤ r := leftTrace_le P r hr
  have hstop := leftTrace_in P r hr
  have hnoop : ∀ (fuel : ℕ) (freq : Multiset String),
      sweepShrink P (P.getD (r + 1) (0, "")).1 fuel (leftTrace P r) freq
        = (leftTrace P r, freq) := by
    intro fuel freq
    refine sweepShrink_noop P _ _ ?_ fuel freq
    rintro ⟨_, hgt⟩
    rw [heq] at hgt
    omega
  have hlt : leftTrace P (r + 1) = leftTrace P r := by
    rw [(windowCount_eq_card P (r + 1) hr1).1]
    have hstart : (sweepAux P (r + 1)).left = leftTrace P r := rfl
    rw [hstart, hnoop]
  refine ⟨hlt, ?_⟩
  rw [hlt]
  show windowList P (leftTrace P r) (r + 1 + 1)
      = windowList P (leftTrace P r) (r + 1) ++ [(P.getD (r + 1) (0, "")).2]
  exact windowList_snoc P (by omega) hr1

lemma windowCount_eq_toFinset_card (P : List (ℤ × String)) (k : ℕ) :
    windowCount P k = (windowSenders P (leftTrace P k) k).toFinset.card := by
  unfold windowCount
  rw [List.card_toFinset]

lemma window_to_group_end (P : List (ℤ × String))
    (hmono : ∀ i j : ℕ, i ≤ j → j < P.length → (P.getD i (0, "")).1 ≤ (P.getD j (0, "")).1) :
    ∀ (d r : ℕ), r < P.length → P.length - r ≤ d →
      ∃ e, r ≤ e ∧ e < P.length ∧
        (e + 1 = P.length ∨ (P.getD e (0, "")).1 < (P.getD (e + 1) (0, "")).1) ∧
        (∀ j, r ≤ j → j < e → (P.getD (j + 1) (0, "")).1 = (P.getD j (0, "")).1) ∧
        (windowSenders P (leftTrace P r) r).toFinset ⊆
          (windowSenders P (leftTrace P e) e).toFinset
  | 0, r, hr, hd => absurd hd (by omega)
  | d + 1, r, hr, hd => by
      by_cases hge : r + 1 = P.length ∨ (P.getD r (0, "")).1 < (P.getD (r + 1) (0, "")).1
      · exact ⟨r, le_refl r, hr, hge,
          fun j h1 h2 => absurd (lt_of_le_of_lt h1 h2) (lt_irrefl r), Finset.Subset.refl _⟩
      · push_neg at hge
        obtain ⟨hne, hnlt⟩ := hge
        have hr1 : r + 1 < P.length := by omega
        have hts : (P.getD (r + 1) (0, "")).1 = (P.getD r (0, "")).1 := by
          have h1 := hmono r (r + 1) (Nat.le_succ r) hr1
          omega
        obtain ⟨hlt, hsnoc⟩ := window_step_in_group P r hr1 hts
        obtain ⟨e, h1, h2, h3, h4, h5⟩ := window_to_group_end P hmono d (r + 1) hr1 (by omega)
        refine ⟨e, by omega, h2, h3, ?_, ?_⟩
        · intro j hj1 hj2
          rcases Nat.lt_or_ge j (r + 1) with h | h
          · have hjr : j = r := by omega
            subst hjr
            exact hts
          · exact h4 j h hj2
        · refine Finset.Subset.trans ?_ h5
          rw [hsnoc, List.toFinset_append]
          exact Finset.subset_union_left

lemma fanSweep_congr_of_perm {P Q : List (ℤ × String)}
    (hfst : P.map Prod.fst = Q.map Prod.fst) (hperm : P.Perm Q)
    (hmonoP : ∀ i j : ℕ, i ≤ j → j < P.length → (P.getD i (0, "")).1 ≤ (P.getD j (0, "")).1) :
    (fanSweep P).bestUnique = (fanSweep Q).bestUnique ∧
    (windowSenders P (fanSweep P).bestLeft (fanSweep P).bestRight).toFinset =
      (windowSenders Q (fanSweep Q).bestLeft (fanSweep Q).bestRight).toFinset := by
  have hlen : P.length = Q.length := by simpa using congrArg List.length hfst
  have hmonoQ : ∀ i j : ℕ, i ≤ j → j < Q.length →
      (Q.getD i (0, "")).1 ≤ (Q.getD j (0, "")).1 := by
    intro i j hij hj
    rw [← getD_fst_congr hfst i, ← getD_fst_congr hfst j]
    exact hmonoP i j hij (by omega)
  have hcount : ∀ e, e < P.length →
      (e + 1 = P.length ∨ (P.getD e (0, "")).1 < (P.getD (e + 1) (0, "")).1) →
      windowCount P e = windowCount Q e ∧
      (windowSenders P (leftTrace P e) e).toFinset =
        (windowSenders Q (leftTrace Q e) e).toFinset := by
    intro e he hge
    have hpw := windowSenders_perm_at_group_end hfst hperm hmonoP hmonoQ e he hge
    refine ⟨?_, List.toFinset_eq_of_perm _ _ hpw⟩
    rw [windowCount_eq_toFinset_card, windowCount_eq_toFinset_card,
      List.toFinset_eq_of_perm _ _ hpw]
  rcases Nat.eq_zero_or_pos P.length with h0 | hpos
  · have hP0 : P = [] := List.length_eq_zero.mp h0
    have hQ0 : Q = [] := List.length_eq_zero.mp (by omega)
    subst hP0
    subst hQ0
    exact ⟨rfl, rfl⟩
  · rcases sweepAux_best P P.length (le_refl _) with ⟨h0P, _⟩ |
      ⟨_, hbrP0, hblP0, hbuP0, hallP0, hstrictP0⟩
    · omega
    rcases sweepAux_best Q Q.length (le_refl _) with ⟨h0Q, _⟩ |
      ⟨_, hbrQ0, hblQ0, hbuQ0, hallQ0, hstrictQ0⟩
    · omega
    have hbrP' : (fanSweep P).bestRight < P.length := hbrP0
    have hblP' : (fanSweep P).bestLeft = leftTrace P (fanSweep P).bestRight := hblP0
    have hbuP' : (fanSweep P).bestUnique = windowCount P (fanSweep P).bestRight := hbuP0
    have hallP' : ∀ j, j < P.length → windowCount P j ≤ (fanSweep P).bestUnique := hallP0
    have hstrictP' : ∀ j, j < (fanSweep P).bestRight →
        windowCount P j < (fanSweep P).bestUnique := hstrictP0
    have hbrQ' : (fanSweep Q).bestRight < Q.length := hbrQ0
    have hblQ' : (fanSweep Q).bestLeft = leftTrace Q (fanSweep Q).bestRight := hblQ0
    have hbuQ' : (fanSweep Q).bestUnique = windowCount Q (fanSweep Q).bestRight := hbuQ0
    have hallQ' : ∀ j, j < Q.length → windowCount Q j ≤ (fanSweep Q).bestUnique := hallQ0
    have hstrictQ' : ∀ j, j < (fanSweep Q).bestRight →
        windowCount Q j < (fanSweep Q).bestUnique := hstrictQ0
    obtain ⟨eP, _, heP2, heP3, heP4, heP5⟩ :=
      window_to_group_end P hmonoP P.length (fanSweep P).bestRight hbrP' (by omega)
    obtain ⟨eQ, _, heQ2, heQ3, heQ4, heQ5⟩ :=
      window_to_group_end Q hmonoQ Q.length (fanSweep Q).bestRight hbrQ' (by omega)
    obtain ⟨hceP, hseP⟩ := hcount eP heP2 heP3
    have heQ3P : eQ + 1 = P.length ∨ (P.getD eQ (0, "")).1 < (P.getD (eQ + 1) (0, "")).1 := by
      rcases heQ3 with h | h
      · exact Or.inl (by omega)
      · right
        rw [getD_fst_congr hfst eQ, getD_fst_congr hfst (eQ + 1)]
        exact h
    obtain ⟨hceQ, hseQ⟩ := hcount eQ (by omega) heQ3P
    have hPsub : windowCount P (fanSweep P).bestRight ≤ windowCount P eP := by
      rw [windowCount_eq_toFinset_card, windowCount_eq_toFinset_card]
      exact Finset.card_le_card heP5
    have hQsub : windowCount Q (fanSweep Q).bestRight ≤ windowCount Q eQ := by
      rw [windowCount_eq_toFinset_card, windowCount_eq_toFinset_card]
      exact Finset.card_le_card heQ5
    have hcePM : windowCount P eP = (fanSweep P).bestUnique :=
      le_antisymm (hallP' eP heP2) (le_trans (le_of_eq hbuP') hPsub)
    have hceQM : windowCount Q eQ = (fanSweep Q).bestUnique :=
      le_antisymm (hallQ' eQ heQ2) (le_trans (le_of_eq hbuQ') hQsub)
    have hMPQ : (fanSweep P).bestUnique ≤ (fanSweep Q).bestUnique := by
      have h1 : windowCount Q eP ≤ (fanSweep Q).bestUnique := hallQ' eP (by omega)
      omega
    have hMQP : (fanSweep Q).bestUnique ≤ (fanSweep P).bestUnique := by
      have h1 : windowCount P eQ ≤ (fanSweep P).bestUnique := hallP' eQ (by omega)
      omega
    have hM : (fanSweep P).bestUnique = (fanSweep Q).bestUnique := le_antisymm hMPQ hMQP
    have hsetP : (windowSenders P (leftTrace P (fanSweep P).bestRight)
        (fanSweep P).bestRight).toFinset
        = (windowSenders P (leftTrace P eP) eP).toFinset := by
      refine Finset.eq_of_subset_of_card_le heP5 (le_of_eq ?_)
      rw [← windowCount_eq_toFinset_card, ← windowCount_eq_toFinset_card, hcePM, hbuP']
    have hsetQ : (windowSenders Q (leftTrace Q (fanSweep Q).bestRight)
        (fanSweep Q).bestRight).toFinset
        = (windowSenders Q (leftTrace Q eQ) eQ).toFinset := by
      refine Finset.eq_of_subset_of_card_le heQ5 (le_of_eq ?_)
      rw [← windowCount_eq_toFinset_card, ← windowCount_eq_toFinset_card, hceQM, hbuQ']
    have hbrQeP : (fanSweep Q).bestRight ≤ eP := by
      by_contra hcon
      push_neg at hcon
      have h1 := hstrictQ' eP hcon
      omega
    have hbrPeQ : (fanSweep P).bestRight ≤ eQ := by
      by_contra hcon
      push_neg at hcon
      have h1 := hstrictP' eQ hcon
      omega
    have hePQ : eP = eQ := by
      rcases Nat.lt_trichotomy eP eQ with h | h | h
      · have hflat := heQ4 eP hbrQeP h
        rcases heP3 with hend | hlt2
        · omega
        · rw [getD_fst_congr hfst eP, getD_fst_congr hfst (eP + 1)] at hlt2
          omega
      · exact h
      · have hflat := heP4 eQ hbrPeQ h
        rcases heQ3 with hend | hlt2
        · omega
        · rw [← getD_fst_congr hfst eQ, ← getD_fst_congr hfst (eQ + 1)] at hlt2
          omega
    refine ⟨hM, ?_⟩
    rw [hblP', hblQ', hsetP, hsetQ, hePQ]
    exact hseQ

lemma fanInParsed_map_fst (G : TxGraph) (r : String) :
    (fanInParsed G r).map Prod.fst = (incoming_list G r).map (fun t => t.timestamp) := by
  unfold fanInParsed
  rw [List.map_map]
  rfl

lemma fanOutParsed_map_fst (G : TxGraph) (r : String) :
    (fanOutParsed G r).map Prod.fst = (outgoing_list G r).map (fun t => t.timestamp) := by
  unfold fanOutParsed
  rw [List.map_map]
  rfl

lemma fanInParsed_pairwise (G : TxGraph) (r : String) :
    (fanInParsed G r).Pairwise (fun a b => a.1 ≤ b.1) := by
  unfold fanInParsed
  rw [List.pairwise_map]
  exact List.sorted_insertionSort tsLe _

lemma fanOutParsed_pairwise (G : TxGraph) (r : String) :
    (fanOutParsed G r).Pairwise (fun a b => a.1 ≤ b.1) := by
  unfold fanOutParsed
  rw [List.pairwise_map]
  exact List.sorted_insertionSort tsLe _

lemma fanInRingFor_eq_of_perm {t1 t2 : List Transaction} (hp : t1.Perm t2) :
    fanInRingFor t1 = fanInRingFor t2 := by
  funext r
  have hperm : (fanInParsed t1 r).Perm (fanInParsed t2 r) := (incoming_list_perm hp r).map _
  have hfst : (fanInParsed t1 r).map Prod.fst = (fanInParsed t2 r).map Prod.fst := by
    rw [fanInParsed_map_fst, fanInParsed_map_fst, incoming_list_map_ts hp r]
  obtain ⟨hbu, hset⟩ :=
    fanSweep_congr_of_perm hfst hperm (parsed_mono (fanInParsed_pairwise t1 r))
  have hmem : sortStrings ((r :: windowSenders (fanInParsed t1 r)
      (fanSweep (fanInParsed t1 r)).bestLeft (fanSweep (fanInParsed t1 r)).bestRight).dedup)
      = sortStrings ((r :: windowSenders (fanInParsed t2 r)
      (fanSweep (fanInParsed t2 r)).bestLeft (fanSweep (fanInParsed t2 r)).bestRight).dedup) := by
    apply sortStrings_eq_of_perm
    refine List.perm_of_nodup_nodup_toFinset_eq (List.nodup_dedup _) (List.nodup_dedup _) ?_
    rw [toFinset_dedup_eq, toFinset_dedup_eq, List.toFinset_cons, List.toFinset_cons, hset]
  unfold fanInRingFor
  rw [is_merchant_smurfing_eq_of_perm hp, (incoming_list_perm hp r).length_eq]
  dsimp only
  rw [hmem, hbu]

lemma fanOutRingFor_eq_of_perm {t1 t2 : List Transaction} (hp : t1.Perm t2) :
    fanOutRingFor t1 = fanOutRingFor t2 := by
  funext r
  have hperm : (fanOutParsed t1 r).Perm (fanOutParsed t2 r) := (outgoing_list_perm hp r).map _
  have hfst : (fanOutParsed t1 r).map Prod.fst = (fanOutParsed t2 r).map Prod.fst := by
    rw [fanOutParsed_map_fst, fanOutParsed_map_fst, outgoing_list_map_ts hp r]
  obtain ⟨hbu, hset⟩ :=
    fanSweep_congr_of_perm hfst hperm (parsed_mono (fanOutParsed_pairwise t1 r))
  have hmem : sortStrings ((r :: windowSenders (fanOutParsed t1 r)
      (fanSweep (fanOutParsed t1 r)).bestLeft (fanSweep (fanOutParsed t1 r)).bestRight).dedup)
      = sortStrings ((r :: windowSenders (fanOutParsed t2 r)
      (fanSweep (fanOutParsed t2 r)).bestLeft (fanSweep (fanOutParsed t2 r)).bestRight).dedup) := by
    apply sortStrings_eq_of_perm
    refine List.perm_of_nodup_nodup_toFinset_eq (List.nodup_dedup _) (List.nodup_dedup _) ?_
    rw [toFinset_dedup_eq, toFinset_dedup_eq, List.toFinset_cons, List.toFinset_cons, hset]
  unfold fanOutRingFor
  rw [is_merchant_smurfing_eq_of_perm hp, (outgoing_list_perm hp r).length_eq]
  dsimp only
  rw [hmem, hbu]

lemma smurfing_detector_eq_of_perm {t1 t2 : List Transaction} (hp : t1.Perm t2) :
    smurfing_detector t1 = smurfing_detector t2 := by
  unfold smurfing_detector
  rw [detect_fan_in_eq, detect_fan_in_eq, detect_fan_out_eq, detect_fan_out_eq,
    incoming_keys_eq_of_perm hp, outgoing_keys_eq_of_perm hp,
    fanInRingFor_eq_of_perm hp, fanOutRingFor_eq_of_perm hp]

lemma valid_intermediate_eq_of_perm {t1 t2 : List Transaction} (hp : t1.Perm t2) :
    valid_intermediate t1 = valid_intermediate t2 := by
  funext a
  unfold valid_intermediate total_degree
  rw [(incoming_list_perm hp a).length_eq, (outgoing_list_perm hp a).length_eq,
    is_merchant_smurfing_eq_of_perm hp]

lemma layeredLoop_eq_of_perm {t1 t2 : List Transaction} (hp : t1.Perm t2) :
    ∀ (fuel : ℕ) (stack : List (String × List String)) (raw : List (List String))
      (seen : List (Finset String)),
      layeredLoop t1 fuel stack raw seen = layeredLoop t2 fuel stack raw seen
  | 0, _, _, _ => rfl
  | _ + 1, [], _, _ => rfl
  | fuel + 1, (current, path) :: stack, raw, seen => by
      rw [layeredLoop, layeredLoop]
      dsimp only
      rw [valid_intermediate_eq_of_perm hp, successors_sorted_eq_of_perm hp]
      by_cases h5 : 5 ≤ path.length - 1
      · rw [if_pos h5, if_pos h5]
        exact layeredLoop_eq_of_perm hp fuel stack _ _
      · rw [if_neg h5, if_neg h5]
        exact layeredLoop_eq_of_perm hp fuel _ _ _

lemma detect_layered_networks_eq_of_perm {t1 t2 : List Transaction} (hp : t1.Perm t2) :
    detect_layered_networks t1 = detect_layered_networks t2 := by
  funext fuel
  unfold detect_layered_networks layered_raw_paths
  have hloop : layeredLoop t1 = layeredLoop t2 := by
    funext f st r sn
    exact layeredLoop_eq_of_perm hp f st r sn
  rw [nodes_sorted_eq_of_perm hp, hloop]

lemma compute_transaction_metrics_eq_of_perm {t1 t2 : List Transaction} (hp : t1.Perm t2) :
    compute_transaction_metrics t1 = compute_transaction_metrics t2 := by
  unfold compute_transaction_metrics is_merchant_scoring mean_total_tx total_tx_sum
  rw [nodes_sorted_eq_of_perm hp, total_tx_count_eq_of_perm hp,
    incident_ts_sorted_eq_of_perm hp]

lemma compute_suspicion_scores_eq_of_perm {t1 t2 : List Transaction} (hp : t1.Perm t2) :
    compute_suspicion_scores t1 = compute_suspicion_scores t2 := by
  funext rings
  unfold compute_suspicion_scores
  rw [compute_transaction_metrics_eq_of_perm hp, nodes_sorted_eq_of_perm hp]

lemma calculate_ring_metrics_eq_of_perm {t1 t2 : List Transaction} (hp : t1.Perm t2)
    (c : List String) :
    calculate_ring_metrics c t1 = calculate_ring_metrics c t2 := by
  unfold calculate_ring_metrics
  rw [edgeStats_eq_of_perm hp]

lemma build_cycle_rings_from_eq_of_perm {t1 t2 : List Transaction} (hp : t1.Perm t2) :
    ∀ (idx : ℕ) (cs : List (List String)),
      build_cycle_rings_from t1 idx cs = build_cycle_rings_from t2 idx cs
  | _, [] => rfl
  | idx, c :: cs => by
      rw [build_cycle_rings_from, build_cycle_rings_from,
        calculate_ring_metrics_eq_of_perm hp c,
        build_cycle_rings_from_eq_of_perm hp (idx + 1) cs]

lemma cycle_detector_eq_of_perm {t1 t2 : List Transaction} (hp : t1.Perm t2) :
    cycle_detector t1 = cycle_detector t2 := by
  funext cycles
  unfold cycle_detector build_cycle_rings
  rw [build_cycle_rings_from_eq_of_perm hp]

/-- C5 (amended): the pipeline produces identical reports on two input
batches that are permutations of each other, provided the
cycle-enumeration oracle returns the same enumeration for both; no
condition on the timestamps is needed, because every stage reads the
input only through timestamp-sorted views whose observable outputs
(sorted key lists, degree counts, amount sums, and the best sliding
window's distinct-counterparty count and member set) are invariant
under reordering entries that share a timestamp. Without the
same-enumeration proviso the reports can differ (see the
counterexample), because the cycle detector keeps the enumeration order
of the third-party cycle-finding routine and that order follows graph
insertion order. -/
theorem pipeline_invariant_under_input_shuffle
    (t1 t2 : List Transaction) (hp : t1.Perm t2)
    (cycles : List (List String)) (fuel : ℕ)
    (mlAvailable : Bool) (mlProbs : List (String × ℚ)) (pt : ℚ) :
    run_pipeline t1 cycles fuel mlAvailable mlProbs pt
      = run_pipeline t2 cycles fuel mlAvailable mlProbs pt := by
  unfold run_pipeline pipelineRings
  rw [cycle_detector_eq_of_perm hp, smurfing_detector_eq_of_perm hp,
    detect_layered_networks_eq_of_perm hp, compute_suspicion_scores_eq_of_perm hp]
  unfold build_final_json
  have hacc : ((t1.map (fun t => t.sender_id)) ++ (t1.map (fun t => t.receiver_id))).dedup.length
      = ((t2.map (fun t => t.sender_id)) ++ (t2.map (fun t => t.receiver_id))).dedup.length :=
    (((hp.map _).append (hp.map _)).dedup).length_eq
  rw [hacc, hp.length_eq]

/-- Two disjoint triangles, D-E-F edges inserted first. -/
def counterG5a : TxGraph :=
  [⟨"d1", "D", "E", 1, 0⟩, ⟨"d2", "E", "F", 1, 10⟩, ⟨"d3", "F", "D", 1, 20⟩,
   ⟨"a1", "A", "B", 1, 30⟩, ⟨"a2", "B", "C", 1, 40⟩, ⟨"a3", "C", "A", 1, 50⟩]

/-- The same six transactions with the A-B-C edges inserted first. -/
def counterG5b : TxGraph :=
  [⟨"a1", "A", "B", 1, 30⟩, ⟨"a2", "B", "C", 1, 40⟩, ⟨"a3", "C", "A", 1, 50⟩,
   ⟨"d1", "D", "E", 1, 0⟩, ⟨"d2", "E", "F", 1, 10⟩, ⟨"d3", "F", "D", 1, 20⟩]

/-- C5 counterexample: counterG5b is a permutation of counterG5a
(timestamps unchanged), each pipeline run is given the elementary-cycle
enumeration in its own graph insertion order (the order
networkx.simple_cycles produces), and the two reports differ: the two
equal-risk cycle rings keep their enumeration order, so RING_001 holds
members D,E,F in one report and A,B,C in the other. -/
theorem shuffled_input_different_report_counterexample :
    counterG5a.Perm counterG5b ∧
    (∀ c ∈ [["D", "E", "F"], ["A", "B", "C"]], isElementaryCycle counterG5a c) ∧
    (∀ c ∈ [["A", "B", "C"], ["D", "E", "F"]], isElementaryCycle counterG5b c) ∧
    (run_pipeline counterG5a [["D", "E", "F"], ["A", "B", "C"]] 64 false [] 0).fraud_rings.map
        (fun r => (r.ring_id, r.members))
      = [("RING_001", ["D", "E", "F"]), ("RING_002", ["A", "B", "C"])] ∧
    (run_pipeline counterG5b [["A", "B", "C"], ["D", "E", "F"]] 64 false [] 0).fraud_rings.map
        (fun r => (r.ring_id, r.members))
      = [("RING_001", ["A", "B", "C"]), ("RING_002", ["D", "E", "F"])] ∧
    run_pipeline counterG5a [["D", "E", "F"], ["A", "B", "C"]] 64 false [] 0
      ≠ run_pipeline counterG5b [["A", "B", "C"], ["D", "E", "F"]] 64 false [] 0 := by
  with_unfolding_all decide

/-- Concrete instantiation of pipeline_invariant_under_input_shuffle on
a two-transaction batch with a shared timestamp and its swap. -/
theorem pipeline_invariant_under_input_shuffle_witness :
    run_pipeline [⟨"t1", "A", "B", 1, 0⟩, ⟨"t2", "B", "C", 2, 0⟩] [] 16 false [] 0
      = run_pipeline [⟨"t2", "B", "C", 2, 0⟩, ⟨"t1", "A", "B", 1, 0⟩] [] 16 false [] 0 :=
  pipeline_invariant_under_input_shuffle
    [⟨"t1", "A", "B", 1, 0⟩, ⟨"t2", "B", "C", 2, 0⟩]
    [⟨"t2", "B", "C", 2, 0⟩, ⟨"t1", "A", "B", 1, 0⟩]
    (by with_unfolding_all decide) [] 16 false [] 0

end Rift
